import Mathlib

/-!
Verification of the real-time review notification subsystem of the
WWTP anomaly-review platform: the WebSocket `ConnectionManager`,
`NotificationService` and the `/ws` endpoint handshake of the review
service (`app/websocket_manager.py`, `app/main.py`).

The Python code is shallowly embedded: Python dicts become association
lists with unique keys, Python sets become duplicate-free lists
(insertion ordered, `next(iter(...))` is the head), timestamps become
integers passed explicitly (`datetime.now()` becomes a `now` argument),
and the fallible transport write (`websocket.send_text`) becomes an
oracle `failing : Nat → Bool` saying which connection handles raise on
write.  Messages keep their `type` tag and a string-valued data
association list; the pydantic `WebSocketMessage` wrapper preserves the
tag, which is all delivery routing depends on.  Side effects (delivered
frames, close-frame attempts) are collected in an explicit event list.
-/

namespace AnomalyReview

/-- Lookup in an association list keyed by `Nat` (Python `dict.get`). -/
def alookup {α : Type} : List (Nat × α) → Nat → Option α
  | [], _ => none
  | (k, v) :: rest, key => if k = key then some v else alookup rest key

/-- Dict assignment `d[key] = v`: replaces the first binding of `key`
in place, or appends a new binding (Python dicts are insertion
ordered and assignment keeps the position of an existing key). -/
def aset {α : Type} : List (Nat × α) → Nat → α → List (Nat × α)
  | [], key, v => [(key, v)]
  | (k, w) :: rest, key, v =>
      if k = key then (key, v) :: rest else (k, w) :: aset rest key v

/-- Dict deletion / `dict.pop(key, None)`: removes the first binding
of `key`, if any. -/
def aerase {α : Type} : List (Nat × α) → Nat → List (Nat × α)
  | [], _ => []
  | (k, w) :: rest, key => if k = key then rest else (k, w) :: aerase rest key

/-- User record as consumed by the websocket manager (`app/schemas.py`
`User`; fields the manager never reads are omitted).  `role` is one of
"admin", "reviewer", "operator" (`UserRole` is a `str` enum). -/
structure User where
  id : Nat
  username : String
  role : String
deriving DecidableEq, Repr

/-- Per-connection metadata dict (`connection_metadata[websocket]`). -/
structure ConnMeta where
  connected_at : Int
  last_heartbeat : Int
deriving DecidableEq, Repr

/-- Outbound message dict: the `type` tag and the `data` payload
(string-valued association list; floats are carried as strings). -/
structure Message where
  mtype : String
  data : List (String × String)
deriving DecidableEq, Repr

/-- Observable side effects of the manager: a frame delivered on a
connection (`websocket.send_text` succeeded) and a close-frame attempt
(`websocket.close(code=..., reason=...)`). -/
inductive Event where
  | sent (ws : Nat) (m : Message)
  | closed (ws : Nat) (code : Nat) (reason : String)
deriving DecidableEq, Repr

/-- State of `ConnectionManager`: `active_connections` maps a user id
to its set of live connection handles, `connection_users` maps a
handle back to its owning `User`, `connection_metadata` maps a handle
to its timestamps. -/
structure CMState where
  active_connections : List (Nat × List Nat)
  connection_users : List (Nat × User)
  connection_metadata : List (Nat × ConnMeta)
deriving DecidableEq, Repr

/-- `ConnectionManager.__init__`: all three maps start empty. -/
def mkConnectionManager : CMState :=
  { active_connections := [], connection_users := [], connection_metadata := [] }

/-- `ConnectionManager.disconnect(websocket)`: look the owner up, discard
the handle from the owner's set, drop the user entry if the set became
empty, then unconditionally pop the reverse-lookup and metadata
entries. -/
def disconnect (s : CMState) (ws : Nat) : CMState :=
  let s1 :=
    match alookup s.connection_users ws with
    | some user =>
        match alookup s.active_connections user.id with
        | some conns =>
            let conns2 := conns.filter (fun w => w ≠ ws)
            if conns2 = [] then
              { s with active_connections := aerase s.active_connections user.id }
            else
              { s with active_connections := aset s.active_connections user.id conns2 }
        | none => s
    | none => s
  { s1 with
      connection_users := aerase s1.connection_users ws,
      connection_metadata := aerase s1.connection_metadata ws }

/-- The `try:` block of `send_personal_message`: build the
`WebSocketMessage` envelope and write it; the oracle `failing` says
whether `websocket.send_text` raises for this handle. -/
def send_personal_message_attempt (failing : Nat → Bool) (s : CMState)
    (message : Message) (ws : Nat) : Except String (CMState × List Event) :=
  if failing ws then Except.error "send_text failed"
  else Except.ok (s, [Event.sent ws message])

/-- `ConnectionManager.send_personal_message` with its exception
interface made explicit: the `except` branch logs and calls
`disconnect`, and no exception ever escapes (hence always `ok`). -/
def send_personal_message_checked (failing : Nat → Bool) (s : CMState)
    (message : Message) (ws : Nat) : Except String (CMState × List Event) :=
  match send_personal_message_attempt failing s message ws with
  | Except.ok p => Except.ok p
  | Except.error _ => Except.ok (disconnect s ws, [])

/-- `ConnectionManager.send_personal_message` as a total state
transformer (the `Except.error` branch is unreachable, see C10). -/
def send_personal_message (failing : Nat → Bool) (s : CMState)
    (message : Message) (ws : Nat) : CMState × List Event :=
  match send_personal_message_checked failing s message ws with
  | Except.ok p => p
  | Except.error _ => (s, [])

/-- Loop body of `send_user_message`: iterate over a snapshot
(`.copy()`) of the user's connection set, sending to each; a raising
send would be collected into `disconnected_connections` (third
component), but `send_personal_message` never raises. -/
def send_user_message_loop (failing : Nat → Bool) (message : Message) :
    List Nat → CMState × List Event × List Nat → CMState × List Event × List Nat
  | [], acc => acc
  | ws :: rest, (st, evs, disc) =>
      match send_personal_message_checked failing st message ws with
      | Except.ok (st2, evs2) =>
          send_user_message_loop failing message rest (st2, evs ++ evs2, disc)
      | Except.error _ =>
          send_user_message_loop failing message rest (st, evs, disc ++ [ws])

/-- `ConnectionManager.send_user_message(message, user_id)`. -/
def send_user_message (failing : Nat → Bool) (s : CMState)
    (message : Message) (user_id : Nat) : CMState × List Event :=
  match alookup s.active_connections user_id with
  | none => (s, [])
  | some conns =>
      let r := send_user_message_loop failing message conns (s, [], [])
      (r.2.2.foldl (fun st ws => disconnect st ws) r.1, r.2.1)

/-- Loop of `send_role_message`: for each user entry, look at the live
connection set, take an arbitrary (first) connection, resolve its
owner, and if the owner's role matches delegate to
`send_user_message`. -/
def send_role_message_loop (failing : Nat → Bool) (message : Message) (role : String) :
    List (Nat × List Nat) → CMState × List Event → CMState × List Event
  | [], acc => acc
  | (user_id, _) :: rest, (st, evs) =>
      match (alookup st.active_connections user_id).getD [] with
      | [] => send_role_message_loop failing message role rest (st, evs)
      | ws :: _ =>
          match alookup st.connection_users ws with
          | some user =>
              if user.role = role then
                let r := send_user_message failing st message user_id
                send_role_message_loop failing message role rest (r.1, evs ++ r.2)
              else send_role_message_loop failing message role rest (st, evs)
          | none => send_role_message_loop failing message role rest (st, evs)

/-- `ConnectionManager.send_role_message(message, role)`. -/
def send_role_message (failing : Nat → Bool) (s : CMState)
    (message : Message) (role : String) : CMState × List Event :=
  send_role_message_loop failing message role s.active_connections (s, [])

/-- Loop of `broadcast_message` over a snapshot of the user-id keys
(`list(self.active_connections.keys())`). -/
def broadcast_message_loop (failing : Nat → Bool) (message : Message) :
    List Nat → CMState × List Event → CMState × List Event
  | [], acc => acc
  | user_id :: rest, (st, evs) =>
      let r := send_user_message failing st message user_id
      broadcast_message_loop failing message rest (r.1, evs ++ r.2)

/-- `ConnectionManager.broadcast_message(message)`. -/
def broadcast_message (failing : Nat → Bool) (s : CMState)
    (message : Message) : CMState × List Event :=
  broadcast_message_loop failing message (s.active_connections.map Prod.fst) (s, [])

/-- Welcome envelope sent at the end of `connect`. -/
def welcome_message (u : User) (now : Int) : Message :=
  { mtype := "connection_established",
    data := [("user_id", toString u.id), ("username", u.username),
             ("connected_at", toString now)] }

/-- Registration block of `ConnectionManager.connect`: create the
user's set if absent, add the handle, record the owner and fresh
metadata. -/
def connect_register (s : CMState) (ws : Nat) (user : User) (now : Int) :
    CMState :=
  let ac0 :=
    if (alookup s.active_connections user.id).isNone then
      aset s.active_connections user.id []
    else s.active_connections
  let conns := (alookup ac0 user.id).getD []
  let conns2 := if ws ∈ conns then conns else conns ++ [ws]
  { active_connections := aset ac0 user.id conns2,
    connection_users := aset s.connection_users ws user,
    connection_metadata :=
      aset s.connection_metadata ws
        { connected_at := now, last_heartbeat := now } }

/-- `ConnectionManager.connect(websocket, user)`: accept (transport
level, no registry effect), run the registration block, then send the
welcome message through `send_personal_message`. -/
def connect (failing : Nat → Bool) (s : CMState) (ws : Nat) (user : User)
    (now : Int) : CMState × List Event :=
  send_personal_message failing (connect_register s ws user now)
    (welcome_message user now) ws

/-- `ConnectionManager.handle_heartbeat(websocket)`: refresh
`last_heartbeat` and acknowledge, only for known connections. -/
def handle_heartbeat (failing : Nat → Bool) (s : CMState) (ws : Nat)
    (now : Int) : CMState × List Event :=
  match alookup s.connection_metadata ws with
  | some meta =>
      let md2 := aset s.connection_metadata ws ({ meta with last_heartbeat := now })
      let s1 := { s with connection_metadata := md2 }
      send_personal_message failing s1
        { mtype := "heartbeat_ack", data := [("timestamp", toString now)] } ws
  | none => (s, [])

/-- `ConnectionManager.cleanup_stale_connections`: collect the handles
whose `last_heartbeat` timestamp is below `now - 2 * interval`, then
disconnect each and attempt `websocket.close(code=1000,
reason="Heartbeat timeout")` (close failures are swallowed; the event
records the attempt). -/
def cleanup_stale_connections (s : CMState) (now interval : Int) :
    CMState × List Event :=
  let cutoff_time := now - interval * 2
  let stale_connections :=
    s.connection_metadata.filterMap
      (fun p => if p.2.last_heartbeat < cutoff_time then some p.1 else none)
  stale_connections.foldl
    (fun acc ws =>
      (disconnect acc.1 ws, acc.2 ++ [Event.closed ws 1000 "Heartbeat timeout"]))
    (s, [])

/-- One row of `ConnectionManager.get_connected_users()`. -/
structure ConnectedUserEntry where
  user_id : String
  username : String
  role : String
  connection_count : Nat
  connected_at : Option Int
  last_heartbeat : Option Int
deriving DecidableEq, Repr

/-- Loop body of `get_connected_users`: for a user entry with a
non-empty set, read user and metadata from an arbitrary (first)
connection of the set and append one row (`metadata.get(...)` yields
`None` when the metadata entry is missing); otherwise skip. -/
def get_connected_users_step (s : CMState)
    (users : List ConnectedUserEntry) (p : Nat × List Nat) :
    List ConnectedUserEntry :=
  match p.2 with
  | [] => users
  | ws :: _ =>
      match alookup s.connection_users ws with
      | some user =>
          let metadata := alookup s.connection_metadata ws
          users ++
            [{ user_id := toString user.id, username := user.username,
               role := user.role, connection_count := p.2.length,
               connected_at := metadata.map (fun m => m.connected_at),
               last_heartbeat := metadata.map (fun m => m.last_heartbeat) }]
      | none => users

/-- `ConnectionManager.get_connected_users()`: one row per user entry
with a non-empty set. -/
def get_connected_users (s : CMState) : List ConnectedUserEntry :=
  s.active_connections.foldl (get_connected_users_step s) []

/-- Envelope `notify_new_detection` constructs. -/
def new_detection_message (detection_id : Nat) (is_anomaly : Bool)
    (confidence : String) (now : Int) : Message :=
  { mtype := "new_detection",
    data := [("detection_id", toString detection_id),
             ("is_anomaly", toString is_anomaly),
             ("confidence", confidence), ("timestamp", toString now)] }

/-- `NotificationService.notify_new_detection`: build the
`new_detection` envelope and route it to roles "reviewer" then
"admin". -/
def notify_new_detection (failing : Nat → Bool) (s : CMState)
    (detection_id : Nat) (is_anomaly : Bool) (confidence : String)
    (now : Int) : CMState × List Event :=
  let message := new_detection_message detection_id is_anomaly confidence now
  let r1 := send_role_message failing s message "reviewer"
  let r2 := send_role_message failing r1.1 message "admin"
  (r2.1, r1.2 ++ r2.2)

/-- Envelope `notify_review_completed` constructs. -/
def review_completed_message (review_id detection_id : Nat)
    (verdict : String) (now : Int) : Message :=
  { mtype := "review_completed",
    data := [("review_id", toString review_id),
             ("detection_id", toString detection_id),
             ("verdict", verdict), ("timestamp", toString now)] }

/-- `NotificationService.notify_review_completed`: build the
`review_completed` envelope and broadcast it to all connected users. -/
def notify_review_completed (failing : Nat → Bool) (s : CMState)
    (review_id detection_id : Nat) (verdict : String) (now : Int) :
    CMState × List Event :=
  broadcast_message failing s
    (review_completed_message review_id detection_id verdict now)

/-- Envelope `notify_system_alert` constructs. -/
def system_alert_message (alert_type alert_text : String)
    (d : List (String × String)) (now : Int) : Message :=
  { mtype := "system_alert",
    data := [("alert_type", alert_type), ("message", alert_text),
             ("timestamp", toString now)] ++ d }

/-- `NotificationService.notify_system_alert`: build the `system_alert`
envelope and route it to role "admin" only (the `NotificationMessage`
it also constructs is never sent). -/
def notify_system_alert (failing : Nat → Bool) (s : CMState)
    (alert_type alert_text : String) (d : List (String × String))
    (now : Int) : CMState × List Event :=
  send_role_message failing s
    (system_alert_message alert_type alert_text d now) "admin"

/-- Result of the external credential check `get_current_user(token)`
inside the `/ws` endpoint: a user, a falsy result, or a raised
exception. -/
inductive AuthOutcome where
  | ok (u : User)
  | noUser
  | err
deriving DecidableEq, Repr

/-- Outcome of the `/ws` endpoint handshake: an immediate
`websocket.close(code, reason)` rejection, or proceeding to
`manager.connect` with the authenticated user. -/
inductive WsEndpointResult where
  | rejected (code : Nat) (reason : String)
  | accepted (u : User)
deriving DecidableEq, Repr

/-- Handshake portion of `websocket_endpoint` in `app/main.py`: reject
with close code 4001 when the token is absent, fails verification, or
verification raises; otherwise proceed with the user. -/
def websocket_endpoint_auth (token : Option String)
    (verify : String → AuthOutcome) : WsEndpointResult :=
  match token with
  | none => WsEndpointResult.rejected 4001 "Missing authentication token"
  | some t =>
      match verify t with
      | AuthOutcome.ok u => WsEndpointResult.accepted u
      | AuthOutcome.noUser => WsEndpointResult.rejected 4001 "Invalid token"
      | AuthOutcome.err => WsEndpointResult.rejected 4001 "Authentication failed"

/-- Close code of a rejected handshake, if any. -/
def rejection_code : WsEndpointResult → Option Nat
  | WsEndpointResult.rejected code _ => some code
  | WsEndpointResult.accepted _ => none

/-- Default value of `Settings.websocket_heartbeat_interval`
(`app/config.py`, seconds). -/
def websocket_heartbeat_interval : Int := 30

/-- Keys of an association list are pairwise distinct (automatic for a
Python dict). -/
def keys_nodup {α : Type} (l : List (Nat × α)) : Prop :=
  (l.map Prod.fst).Nodup

/-- Representation well-formedness of a `ConnectionManager` state: the
three dicts have unique keys and each connection set is duplicate
free. -/
def registry_wf (s : CMState) : Prop :=
  keys_nodup s.active_connections ∧ keys_nodup s.connection_users ∧
    keys_nodup s.connection_metadata ∧
    ∀ p ∈ s.active_connections, p.2.Nodup

/-- The Registry invariant: no user entry holds an empty connection
set, and every connection in a user's set has a reverse-lookup entry
naming a user with exactly that id. -/
def registry_inv (s : CMState) : Prop :=
  (∀ p ∈ s.active_connections, p.2 ≠ []) ∧
    ∀ p ∈ s.active_connections, ∀ ws ∈ p.2,
      (alookup s.connection_users ws).map User.id = some p.1

/-- All reverse-lookup entries with the same user id carry the same
user record (one role and username per connected user). -/
def users_agree (s : CMState) : Prop :=
  ∀ p ∈ s.connection_users, ∀ q ∈ s.connection_users,
    p.2.id = q.2.id → p.2 = q.2

/-- A handle is fully absent from the Registry. -/
def unregistered (s : CMState) (ws : Nat) : Prop :=
  alookup s.connection_users ws = none ∧
    alookup s.connection_metadata ws = none ∧
    ∀ p ∈ s.active_connections, ws ∉ p.2

/-- Every live connection has a metadata entry (true of every state the
manager reaches, since `connect` installs it). -/
def meta_covers (s : CMState) : Prop :=
  ∀ p ∈ s.active_connections, ∀ ws ∈ p.2,
    (alookup s.connection_metadata ws).isSome = true

/-- Oracle for a transport where no write fails. -/
def noFail : Nat → Bool := fun _ => false

/-- Some frame was delivered on the handle. -/
def sent_to (evs : List Event) (ws : Nat) : Bool :=
  evs.any (fun e =>
    match e with
    | Event.sent w _ => w == ws
    | Event.closed _ _ _ => false)

/-- A frame with the given envelope type was delivered on the handle. -/
def delivered_type (evs : List Event) (ws : Nat) (ty : String) : Bool :=
  evs.any (fun e =>
    match e with
    | Event.sent w m => w == ws && m.mtype == ty
    | Event.closed _ _ _ => false)

/-- A close frame was attempted on the handle. -/
def closes_conn (evs : List Event) (ws : Nat) : Bool :=
  evs.any (fun e =>
    match e with
    | Event.sent _ _ => false
    | Event.closed w _ _ => w == ws)

/-- A single Registry-mutating call: `connect` (with the wall-clock
time of the call) or `disconnect`. -/
inductive RegistryOp where
  | reg (ws : Nat) (u : User) (t : Int)
  | unreg (ws : Nat)
deriving DecidableEq, Repr

/-- Apply one call to a manager state (delivery events discarded). -/
def apply_registry_op (failing : Nat → Bool) (s : CMState) :
    RegistryOp → CMState
  | RegistryOp.reg ws u t => (connect failing s ws u t).1
  | RegistryOp.unreg ws => disconnect s ws

/-- Run a finite sequence of `connect`/`disconnect` calls. -/
def run_registry_ops (failing : Nat → Bool) (s : CMState) :
    List RegistryOp → CMState
  | [] => s
  | op :: rest => run_registry_ops failing (apply_registry_op failing s op) rest

/-- Every `connect` call in the sequence registers a handle under that
handle's own fixed owner (the spec's connection model: the owning user
identity is set once at accept and immutable for the connection). -/
def ops_respect_owner (owner : Nat → User) : List RegistryOp → Bool
  | [] => true
  | RegistryOp.reg ws u _ :: rest =>
      decide (u = owner ws) && ops_respect_owner owner rest
  | RegistryOp.unreg _ :: rest => ops_respect_owner owner rest

/-- All reverse-lookup entries agree with a fixed owner assignment. -/
def users_from (owner : Nat → User) (s : CMState) : Prop :=
  ∀ p ∈ s.connection_users, p.2 = owner p.1

theorem alookup_aset_self {α : Type} (l : List (Nat × α)) (k : Nat) (v : α) :
    alookup (aset l k v) k = some v := by
  induction l with
  | nil => simp [aset, alookup]
  | cons p rest ih =>
      by_cases h : p.1 = k
      · simp [aset, alookup, h]
      · simp [aset, alookup, h, ih]

theorem alookup_aset_ne {α : Type} (l : List (Nat × α)) (k k' : Nat) (v : α)
    (h : k' ≠ k) : alookup (aset l k v) k' = alookup l k' := by
  induction l with
  | nil => simp [aset, alookup, Ne.symm h]
  | cons p rest ih =>
      by_cases hp : p.1 = k
      · simp [aset, alookup, hp, Ne.symm h, h]
      · by_cases hp' : p.1 = k' <;> simp [aset, alookup, hp, hp', h, ih]

theorem aerase_of_alookup_none {α : Type} (l : List (Nat × α)) (k : Nat)
    (h : alookup l k = none) : aerase l k = l := by
  induction l with
  | nil => simp [aerase]
  | cons p rest ih =>
      by_cases hp : p.1 = k
      · simp [alookup, hp] at h
      · simp only [alookup, hp, if_neg hp] at h
        simp [aerase, hp, ih h]

theorem alookup_aerase_ne {α : Type} (l : List (Nat × α)) (k k' : Nat)
    (h : k' ≠ k) : alookup (aerase l k) k' = alookup l k' := by
  induction l with
  | nil => simp [aerase]
  | cons p rest ih =>
      by_cases hp : p.1 = k
      · simp [aerase, alookup, hp, Ne.symm h]
      · by_cases hp' : p.1 = k' <;> simp [aerase, alookup, hp, hp', h, ih]

theorem alookup_eq_none_of_not_mem_keys {α : Type} (l : List (Nat × α)) (k : Nat)
    (h : k ∉ l.map Prod.fst) : alookup l k = none := by
  induction l with
  | nil => simp [alookup]
  | cons p rest ih =>
      simp only [List.map_cons, List.mem_cons] at h
      push_neg at h
      have hp : p.1 ≠ k := fun hc => h.1 hc.symm
      simp [alookup, hp, ih h.2]

theorem mem_keys_of_alookup_isSome {α : Type} (l : List (Nat × α)) (k : Nat)
    (h : (alookup l k).isSome = true) : k ∈ l.map Prod.fst := by
  by_contra hc
  rw [alookup_eq_none_of_not_mem_keys l k hc] at h
  simp at h

theorem alookup_aerase_self {α : Type} (l : List (Nat × α)) (k : Nat)
    (h : keys_nodup l) : alookup (aerase l k) k = none := by
  induction l with
  | nil => simp [aerase, alookup]
  | cons p rest ih =>
      simp only [keys_nodup, List.map_cons, List.nodup_cons] at h
      by_cases hp : p.1 = k
      · simp only [aerase, hp, if_pos rfl]
        exact alookup_eq_none_of_not_mem_keys rest k (by rw [← hp]; exact h.1)
      · simp [aerase, alookup, hp, ih h.2]

theorem keys_aerase {α : Type} (l : List (Nat × α)) (k : Nat) :
    (aerase l k).map Prod.fst = (l.map Prod.fst).erase k := by
  induction l with
  | nil => simp [aerase]
  | cons p rest ih =>
      by_cases hp : p.1 = k
      · simp [aerase, hp, List.erase_cons]
      · simp [aerase, hp, List.erase_cons, ih]

theorem keys_nodup_aerase {α : Type} (l : List (Nat × α)) (k : Nat)
    (h : keys_nodup l) : keys_nodup (aerase l k) := by
  rw [keys_nodup, keys_aerase]
  exact List.Nodup.erase k h

theorem mem_keys_aset_iff {α : Type} (l : List (Nat × α)) (k : Nat) (v : α)
    (a : Nat) : a ∈ (aset l k v).map Prod.fst ↔ a = k ∨ a ∈ l.map Prod.fst := by
  induction l with
  | nil => simp [aset]
  | cons p rest ih =>
      rcases p with ⟨b, w⟩
      by_cases hb : b = k
      · subst hb
        simp only [aset, if_pos rfl, ite_true, List.map_cons, List.mem_cons]
        tauto
      · simp only [aset, if_neg hb, List.map_cons, List.mem_cons, ih]
        tauto

theorem keys_nodup_aset {α : Type} (l : List (Nat × α)) (k : Nat) (v : α)
    (h : keys_nodup l) : keys_nodup (aset l k v) := by
  induction l with
  | nil => simp [aset, keys_nodup]
  | cons p rest ih =>
      rcases p with ⟨b, w⟩
      simp only [keys_nodup, List.map_cons, List.nodup_cons] at h
      by_cases hb : b = k
      · subst hb
        simp only [aset, if_pos rfl, ite_true, keys_nodup, List.map_cons, List.nodup_cons]
        exact h
      · simp only [aset, if_neg hb, keys_nodup, List.map_cons, List.nodup_cons]
        refine ⟨fun hc => ?_, ih h.2⟩
        rcases (mem_keys_aset_iff rest k v b).mp hc with hc' | hc'
        · exact hb hc'
        · exact h.1 hc'

theorem mem_of_alookup {α : Type} (l : List (Nat × α)) (k : Nat) (v : α)
    (h : alookup l k = some v) : (k, v) ∈ l := by
  induction l with
  | nil => simp [alookup] at h
  | cons p rest ih =>
      rcases p with ⟨b, w⟩
      by_cases hb : b = k
      · subst hb
        simp only [alookup, if_pos rfl, ite_true, Option.some.injEq] at h
        subst h
        exact List.mem_cons_self _ _
      · simp only [alookup, if_neg hb] at h
        exact List.mem_cons_of_mem _ (ih h)

theorem alookup_of_mem {α : Type} (l : List (Nat × α)) (k : Nat) (v : α)
    (hnd : keys_nodup l) (h : (k, v) ∈ l) : alookup l k = some v := by
  induction l with
  | nil => simp at h
  | cons p rest ih =>
      rcases p with ⟨b, w⟩
      simp only [keys_nodup, List.map_cons, List.nodup_cons] at hnd
      rcases List.mem_cons.mp h with h1 | h1
      · rw [Prod.mk.injEq] at h1
        simp [alookup, h1.1.symm, h1.2]
      · have hk : k ∈ rest.map Prod.fst := by
          have h2 : (k, v).1 ∈ rest.map Prod.fst := List.mem_map_of_mem Prod.fst h1
          exact h2
        have hb : b ≠ k := fun hc => hnd.1 (hc ▸ hk)
        simp [alookup, hb, ih hnd.2 h1]

theorem mem_aset_iff {α : Type} (l : List (Nat × α)) (k : Nat) (v : α)
    (p : Nat × α) (hnd : keys_nodup l) :
    p ∈ aset l k v ↔ p = (k, v) ∨ (p ∈ l ∧ p.1 ≠ k) := by
  induction l with
  | nil => simp [aset]
  | cons q rest ih =>
      rcases q with ⟨b, w⟩
      simp only [keys_nodup, List.map_cons, List.nodup_cons] at hnd
      by_cases hb : b = k
      · subst hb
        simp only [aset, if_pos rfl, ite_true, List.mem_cons]
        constructor
        · rintro (h | h)
          · exact Or.inl h
          · have hm : p.1 ∈ rest.map Prod.fst := List.mem_map_of_mem Prod.fst h
            exact Or.inr ⟨Or.inr h, fun hc => hnd.1 (hc ▸ hm)⟩
        · rintro (h | ⟨h | h, hne⟩)
          · exact Or.inl h
          · exact absurd (by rw [h]) hne
          · exact Or.inr h
      · simp only [aset, if_neg hb, List.mem_cons, ih hnd.2]
        constructor
        · rintro (h | h | h)
          · exact Or.inr ⟨Or.inl h, by rw [h]; exact hb⟩
          · exact Or.inl h
          · exact Or.inr ⟨Or.inr h.1, h.2⟩
        · rintro (h | ⟨h | h, hne⟩)
          · exact Or.inr (Or.inl h)
          · exact Or.inl h
          · exact Or.inr (Or.inr ⟨h, hne⟩)

theorem mem_aerase_iff {α : Type} (l : List (Nat × α)) (k : Nat)
    (p : Nat × α) (hnd : keys_nodup l) :
    p ∈ aerase l k ↔ p ∈ l ∧ p.1 ≠ k := by
  induction l with
  | nil => simp [aerase]
  | cons q rest ih =>
      rcases q with ⟨b, w⟩
      simp only [keys_nodup, List.map_cons, List.nodup_cons] at hnd
      by_cases hb : b = k
      · subst hb
        simp only [aerase, if_pos rfl, ite_true, List.mem_cons]
        constructor
        · intro h
          have hm : p.1 ∈ rest.map Prod.fst := List.mem_map_of_mem Prod.fst h
          exact ⟨Or.inr h, fun hc => hnd.1 (hc ▸ hm)⟩
        · rintro ⟨h | h, hne⟩
          · exact absurd (by rw [h]) hne
          · exact h
      · simp only [aerase, if_neg hb, List.mem_cons, ih hnd.2]
        constructor
        · rintro (h | h)
          · exact ⟨Or.inl h, by rw [h]; exact hb⟩
          · exact ⟨Or.inr h.1, h.2⟩
        · rintro ⟨h | h, hne⟩
          · exact Or.inl h
          · exact Or.inr ⟨h, hne⟩
theorem disconnect_connection_users (s : CMState) (ws : Nat) :
    (disconnect s ws).connection_users = aerase s.connection_users ws := by
  unfold disconnect
  cases h : alookup s.connection_users ws with
  | none => simp
  | some u =>
      cases h2 : alookup s.active_connections u.id with
      | none => simp [h2]
      | some conns =>
          simp only [h2]
          split <;> rfl

theorem disconnect_connection_metadata (s : CMState) (ws : Nat) :
    (disconnect s ws).connection_metadata = aerase s.connection_metadata ws := by
  unfold disconnect
  cases h : alookup s.connection_users ws with
  | none => simp
  | some u =>
      cases h2 : alookup s.active_connections u.id with
      | none => simp [h2]
      | some conns =>
          simp only [h2]
          split <;> rfl

theorem disconnect_active_none (s : CMState) (ws : Nat)
    (h : alookup s.connection_users ws = none) :
    (disconnect s ws).active_connections = s.active_connections := by
  unfold disconnect
  simp only [h]

theorem disconnect_active_no_entry (s : CMState) (ws : Nat) (u : User)
    (h : alookup s.connection_users ws = some u)
    (h2 : alookup s.active_connections u.id = none) :
    (disconnect s ws).active_connections = s.active_connections := by
  unfold disconnect
  simp only [h, h2]

theorem disconnect_active_empty (s : CMState) (ws : Nat) (u : User)
    (conns : List Nat) (h : alookup s.connection_users ws = some u)
    (h2 : alookup s.active_connections u.id = some conns)
    (hc : conns.filter (fun w => w ≠ ws) = []) :
    (disconnect s ws).active_connections = aerase s.active_connections u.id := by
  unfold disconnect
  simp only [h, h2, if_pos hc]

theorem disconnect_active_filter (s : CMState) (ws : Nat) (u : User)
    (conns : List Nat) (h : alookup s.connection_users ws = some u)
    (h2 : alookup s.active_connections u.id = some conns)
    (hc : ¬ conns.filter (fun w => w ≠ ws) = []) :
    (disconnect s ws).active_connections =
      aset s.active_connections u.id (conns.filter (fun w => w ≠ ws)) := by
  unfold disconnect
  simp only [h, h2, if_neg hc]
theorem mem_aerase_sub {α : Type} (l : List (Nat × α)) (k : Nat)
    (p : Nat × α) (h : p ∈ aerase l k) : p ∈ l := by
  induction l with
  | nil => simp [aerase] at h
  | cons q rest ih =>
      rcases q with ⟨b, w⟩
      by_cases hb : b = k
      · subst hb
        simp only [aerase, if_pos rfl, ite_true] at h
        exact List.mem_cons_of_mem _ h
      · simp only [aerase, if_neg hb, List.mem_cons] at h
        rcases h with h | h
        · exact h ▸ List.mem_cons_self _ _
        · exact List.mem_cons_of_mem _ (ih h)

theorem mem_aset_sub {α : Type} (l : List (Nat × α)) (k : Nat) (v : α)
    (p : Nat × α) (h : p ∈ aset l k v) : p = (k, v) ∨ p ∈ l := by
  induction l with
  | nil => simpa [aset] using h
  | cons q rest ih =>
      rcases q with ⟨b, w⟩
      by_cases hb : b = k
      · subst hb
        simp only [aset, if_pos rfl, ite_true, List.mem_cons] at h
        rcases h with h | h
        · exact Or.inl h
        · exact Or.inr (List.mem_cons_of_mem _ h)
      · simp only [aset, if_neg hb, List.mem_cons] at h
        rcases h with h | h
        · exact Or.inr (h ▸ List.mem_cons_self _ _)
        · rcases ih h with h' | h'
          · exact Or.inl h'
          · exact Or.inr (List.mem_cons_of_mem _ h')

theorem disconnect_preserves_wf (s : CMState) (ws : Nat)
    (h : registry_wf s) : registry_wf (disconnect s ws) := by
  obtain ⟨hwA, hwU, hwM, hwS⟩ := h
  have husers := disconnect_connection_users s ws
  have hmeta := disconnect_connection_metadata s ws
  have hactive : keys_nodup (disconnect s ws).active_connections ∧
      ∀ p ∈ (disconnect s ws).active_connections, p.2.Nodup := by
    cases hl : alookup s.connection_users ws with
    | none =>
        rw [disconnect_active_none s ws hl]
        exact ⟨hwA, hwS⟩
    | some u =>
        cases hact : alookup s.active_connections u.id with
        | none =>
            rw [disconnect_active_no_entry s ws u hl hact]
            exact ⟨hwA, hwS⟩
        | some conns =>
            by_cases hc : conns.filter (fun w => w ≠ ws) = []
            · rw [disconnect_active_empty s ws u conns hl hact hc]
              refine ⟨keys_nodup_aerase _ _ hwA, fun p hp => ?_⟩
              exact hwS p (mem_aerase_sub _ _ _ hp)
            · rw [disconnect_active_filter s ws u conns hl hact hc]
              refine ⟨keys_nodup_aset _ _ _ hwA, fun p hp => ?_⟩
              rcases mem_aset_sub _ _ _ _ hp with hpe | hpm
              · have hcn : conns.Nodup := hwS (u.id, conns) (mem_of_alookup _ _ _ hact)
                rw [hpe]
                exact List.Nodup.filter _ hcn
              · exact hwS p hpm
  refine ⟨hactive.1, ?_, ?_, hactive.2⟩
  · rw [husers]
    exact keys_nodup_aerase _ _ hwU
  · rw [hmeta]
    exact keys_nodup_aerase _ _ hwM

theorem disconnect_preserves_users_from (owner : Nat → User) (s : CMState)
    (ws : Nat) (h : users_from owner s) : users_from owner (disconnect s ws) := by
  intro p hp
  rw [disconnect_connection_users] at hp
  exact h p (mem_aerase_sub _ _ _ hp)

theorem disconnect_preserves_inv (s : CMState) (ws : Nat)
    (hwf : registry_wf s) (hinv : registry_inv s) :
    registry_inv (disconnect s ws) := by
  obtain ⟨hwA, hwU, hwM, hwS⟩ := hwf
  obtain ⟨h1, h2⟩ := hinv
  have husers := disconnect_connection_users s ws
  cases hl : alookup s.connection_users ws with
  | none =>
      constructor
      · intro p hp
        rw [disconnect_active_none s ws hl] at hp
        exact h1 p hp
      · intro p hp w hw
        rw [disconnect_active_none s ws hl] at hp
        have hbase := h2 p hp w hw
        have hwne : w ≠ ws := by
          intro he
          rw [he, hl] at hbase
          simp at hbase
        rw [husers, alookup_aerase_ne _ _ _ hwne]
        exact hbase
  | some u =>
      cases hact : alookup s.active_connections u.id with
      | none =>
          constructor
          · intro p hp
            rw [disconnect_active_no_entry s ws u hl hact] at hp
            exact h1 p hp
          · intro p hp w hw
            rw [disconnect_active_no_entry s ws u hl hact] at hp
            have hbase := h2 p hp w hw
            have hwne : w ≠ ws := by
              intro he
              rw [he, hl] at hbase
              have he2 : u.id = p.1 := by simpa using hbase
              have hm : alookup s.active_connections p.1 = some p.2 :=
                alookup_of_mem _ _ _ hwA hp
              rw [← he2, hact] at hm
              exact Option.noConfusion hm
            rw [husers, alookup_aerase_ne _ _ _ hwne]
            exact hbase
      | some conns =>
          by_cases hc : conns.filter (fun w => w ≠ ws) = []
          · constructor
            · intro p hp
              rw [disconnect_active_empty s ws u conns hl hact hc] at hp
              exact h1 p (mem_aerase_sub _ _ _ hp)
            · intro p hp w hw
              rw [disconnect_active_empty s ws u conns hl hact hc] at hp
              obtain ⟨hpm, hpne⟩ := (mem_aerase_iff _ _ _ hwA).mp hp
              have hbase := h2 p hpm w hw
              have hwne : w ≠ ws := by
                intro he
                rw [he, hl] at hbase
                have he2 : u.id = p.1 := by simpa using hbase
                exact hpne he2.symm
              rw [husers, alookup_aerase_ne _ _ _ hwne]
              exact hbase
          · constructor
            · intro p hp
              rw [disconnect_active_filter s ws u conns hl hact hc] at hp
              rcases (mem_aset_iff _ _ _ _ hwA).mp hp with hpe | ⟨hpm, _⟩
              · rw [hpe]
                exact hc
              · exact h1 p hpm
            · intro p hp w hw
              rw [disconnect_active_filter s ws u conns hl hact hc] at hp
              rcases (mem_aset_iff _ _ _ _ hwA).mp hp with hpe | ⟨hpm, hpne⟩
              · have hwmem : w ∈ conns.filter (fun x => x ≠ ws) := by
                  rw [hpe] at hw
                  exact hw
                have hwc : w ∈ conns := List.mem_of_mem_filter hwmem
                have hwne : w ≠ ws := by
                  have := List.of_mem_filter hwmem
                  simpa using this
                have hconns : (u.id, conns) ∈ s.active_connections :=
                  mem_of_alookup _ _ _ hact
                have hbase := h2 (u.id, conns) hconns w hwc
                rw [husers, alookup_aerase_ne _ _ _ hwne, hpe]
                exact hbase
              · have hbase := h2 p hpm w hw
                have hwne : w ≠ ws := by
                  intro he
                  rw [he, hl] at hbase
                  have he2 : u.id = p.1 := by simpa using hbase
                  exact hpne he2.symm
                rw [husers, alookup_aerase_ne _ _ _ hwne]
                exact hbase
theorem aset_aset {α : Type} (l : List (Nat × α)) (k : Nat) (v v' : α) :
    aset (aset l k v) k v' = aset l k v' := by
  induction l with
  | nil => simp [aset]
  | cons q rest ih =>
      rcases q with ⟨b, w⟩
      by_cases hb : b = k
      · subst hb
        simp [aset]
      · simp [aset, hb, ih]

theorem connect_register_users (s : CMState) (ws : Nat) (u : User) (now : Int) :
    (connect_register s ws u now).connection_users = aset s.connection_users ws u := rfl

theorem connect_register_metadata (s : CMState) (ws : Nat) (u : User) (now : Int) :
    (connect_register s ws u now).connection_metadata =
      aset s.connection_metadata ws { connected_at := now, last_heartbeat := now } := rfl

theorem connect_register_active_fresh (s : CMState) (ws : Nat) (u : User)
    (now : Int) (h : alookup s.active_connections u.id = none) :
    (connect_register s ws u now).active_connections =
      aset s.active_connections u.id [ws] := by
  unfold connect_register
  simp only [h, Option.isNone_none, ite_true, alookup_aset_self, Option.getD_some,
    List.not_mem_nil, ite_false, List.nil_append, aset_aset]

theorem connect_register_active_existing (s : CMState) (ws : Nat) (u : User)
    (now : Int) (conns : List Nat)
    (h : alookup s.active_connections u.id = some conns) :
    (connect_register s ws u now).active_connections =
      aset s.active_connections u.id
        (if ws ∈ conns then conns else conns ++ [ws]) := by
  unfold connect_register
  simp [h]

theorem connect_register_preserves_wf (s : CMState) (ws : Nat) (u : User)
    (now : Int) (h : registry_wf s) : registry_wf (connect_register s ws u now) := by
  obtain ⟨hwA, hwU, hwM, hwS⟩ := h
  have hactive : keys_nodup (connect_register s ws u now).active_connections ∧
      ∀ p ∈ (connect_register s ws u now).active_connections, p.2.Nodup := by
    cases hact : alookup s.active_connections u.id with
    | none =>
        rw [connect_register_active_fresh s ws u now hact]
        refine ⟨keys_nodup_aset _ _ _ hwA, fun p hp => ?_⟩
        rcases mem_aset_sub _ _ _ _ hp with hpe | hpm
        · rw [hpe]
          simp
        · exact hwS p hpm
    | some conns =>
        rw [connect_register_active_existing s ws u now conns hact]
        refine ⟨keys_nodup_aset _ _ _ hwA, fun p hp => ?_⟩
        rcases mem_aset_sub _ _ _ _ hp with hpe | hpm
        · have hcn : conns.Nodup := hwS (u.id, conns) (mem_of_alookup _ _ _ hact)
          rw [hpe]
          by_cases hmem : ws ∈ conns
          · simpa [hmem] using hcn
          · simp [hmem, List.nodup_append, hcn]
        · exact hwS p hpm
  refine ⟨hactive.1, ?_, ?_, hactive.2⟩
  · rw [connect_register_users]
    exact keys_nodup_aset _ _ _ hwU
  · rw [connect_register_metadata]
    exact keys_nodup_aset _ _ _ hwM

theorem connect_register_preserves_users_from (owner : Nat → User)
    (s : CMState) (ws : Nat) (u : User) (now : Int) (hu : u = owner ws)
    (h : users_from owner s) : users_from owner (connect_register s ws u now) := by
  intro p hp
  rw [connect_register_users] at hp
  rcases mem_aset_sub _ _ _ _ hp with hpe | hpm
  · rw [hpe]
    exact hu
  · exact h p hpm

theorem connect_register_preserves_inv (owner : Nat → User) (s : CMState)
    (ws : Nat) (u : User) (now : Int) (hwf : registry_wf s)
    (hinv : registry_inv s) (hfrom : users_from owner s) (hu : u = owner ws) :
    registry_inv (connect_register s ws u now) := by
  obtain ⟨hwA, hwU, hwM, hwS⟩ := hwf
  obtain ⟨h1, h2⟩ := hinv
  have hother : ∀ p ∈ s.active_connections, p.1 ≠ u.id → ∀ w ∈ p.2,
      (alookup (aset s.connection_users ws u) w).map User.id = some p.1 := by
    intro p hp hpne w hw
    have hbase := h2 p hp w hw
    have hwne : w ≠ ws := by
      intro he
      rw [he] at hbase
      obtain ⟨u', hu', hid⟩ : ∃ u', alookup s.connection_users ws = some u' ∧
          u'.id = p.1 := by
        cases hl : alookup s.connection_users ws with
        | none => rw [hl] at hbase; simp at hbase
        | some x => rw [hl] at hbase; exact ⟨x, rfl, by simpa using hbase⟩
      have : u' = owner ws := hfrom (ws, u') (mem_of_alookup _ _ _ hu')
      rw [this, ← hu] at hid
      exact hpne (hid ▸ rfl)
    rw [alookup_aset_ne _ _ _ _ hwne]
    exact hbase
  cases hact : alookup s.active_connections u.id with
  | none =>
      rw [registry_inv, connect_register_active_fresh s ws u now hact,
        connect_register_users]
      constructor
      · intro p hp
        rcases (mem_aset_iff _ _ _ _ hwA).mp hp with hpe | ⟨hpm, _⟩
        · rw [hpe]
          simp
        · exact h1 p hpm
      · intro p hp w hw
        rcases (mem_aset_iff _ _ _ _ hwA).mp hp with hpe | ⟨hpm, hpne⟩
        · rw [hpe] at hw ⊢
          have hwe : w = ws := by simpa using hw
          rw [hwe, alookup_aset_self]
          simp
        · exact hother p hpm hpne w hw
  | some conns =>
      rw [registry_inv, connect_register_active_existing s ws u now conns hact,
        connect_register_users]
      constructor
      · intro p hp
        rcases (mem_aset_iff _ _ _ _ hwA).mp hp with hpe | ⟨hpm, _⟩
        · rw [hpe]
          by_cases hmem : ws ∈ conns
          · simp only [if_pos hmem]
            exact h1 (u.id, conns) (mem_of_alookup _ _ _ hact)
          · simp [hmem]
        · exact h1 p hpm
      · intro p hp w hw
        rcases (mem_aset_iff _ _ _ _ hwA).mp hp with hpe | ⟨hpm, hpne⟩
        · rw [hpe] at hw ⊢
          by_cases hwe : w = ws
          · rw [hwe, alookup_aset_self]
            simp
          · have hwc : w ∈ conns := by
              by_cases hmem : ws ∈ conns
              · simpa [hmem] using hw
              · simp only [if_neg hmem, List.mem_append, List.mem_singleton] at hw
                rcases hw with hw | hw
                · exact hw
                · exact absurd hw hwe
            have hbase := h2 (u.id, conns) (mem_of_alookup _ _ _ hact) w hwc
            rw [alookup_aset_ne _ _ _ _ hwe]
            exact hbase
        · exact hother p hpm hpne w hw

theorem send_personal_message_fail (failing : Nat → Bool) (s : CMState)
    (m : Message) (ws : Nat) (h : failing ws = true) :
    send_personal_message failing s m ws = (disconnect s ws, []) := by
  simp [send_personal_message, send_personal_message_checked,
    send_personal_message_attempt, h]

theorem send_personal_message_ok (failing : Nat → Bool) (s : CMState)
    (m : Message) (ws : Nat) (h : failing ws = false) :
    send_personal_message failing s m ws = (s, [Event.sent ws m]) := by
  simp [send_personal_message, send_personal_message_checked,
    send_personal_message_attempt, h]

/-- A well-formed, invariant-satisfying state whose reverse-lookup
entries agree with a fixed per-handle owner assignment. -/
def good_state (owner : Nat → User) (s : CMState) : Prop :=
  registry_wf s ∧ registry_inv s ∧ users_from owner s

theorem disconnect_preserves_good (owner : Nat → User) (s : CMState)
    (ws : Nat) (h : good_state owner s) : good_state owner (disconnect s ws) :=
  ⟨disconnect_preserves_wf s ws h.1,
    disconnect_preserves_inv s ws h.1 h.2.1,
    disconnect_preserves_users_from owner s ws h.2.2⟩

theorem connect_preserves_good (owner : Nat → User) (failing : Nat → Bool)
    (s : CMState) (ws : Nat) (u : User) (t : Int)
    (h : good_state owner s) (hu : u = owner ws) :
    good_state owner (connect failing s ws u t).1 := by
  have hreg : good_state owner (connect_register s ws u t) :=
    ⟨connect_register_preserves_wf s ws u t h.1,
      connect_register_preserves_inv owner s ws u t h.1 h.2.1 h.2.2 hu,
      connect_register_preserves_users_from owner s ws u t hu h.2.2⟩
  cases hf : failing ws with
  | false =>
      rw [connect, send_personal_message_ok _ _ _ _ hf]
      exact hreg
  | true =>
      rw [connect, send_personal_message_fail _ _ _ _ hf]
      exact disconnect_preserves_good owner _ ws hreg
instance {α : Type} (l : List (Nat × α)) : Decidable (keys_nodup l) := by
  unfold keys_nodup
  infer_instance

instance (s : CMState) : Decidable (registry_wf s) := by
  unfold registry_wf keys_nodup
  infer_instance

instance (s : CMState) : Decidable (registry_inv s) := by
  unfold registry_inv
  infer_instance

instance (s : CMState) : Decidable (users_agree s) := by
  unfold users_agree
  infer_instance

instance (s : CMState) (ws : Nat) : Decidable (unregistered s ws) := by
  unfold unregistered
  infer_instance

instance (s : CMState) : Decidable (meta_covers s) := by
  unfold meta_covers
  infer_instance

instance (owner : Nat → User) (s : CMState) : Decidable (users_from owner s) := by
  unfold users_from
  infer_instance

instance (owner : Nat → User) (s : CMState) : Decidable (good_state owner s) := by
  unfold good_state
  infer_instance

theorem good_state_init (owner : Nat → User) :
    good_state owner mkConnectionManager := by
  refine ⟨⟨?_, ?_, ?_, ?_⟩, ⟨?_, ?_⟩, ?_⟩ <;> simp [mkConnectionManager, keys_nodup, users_from]

theorem run_registry_ops_good (owner : Nat → User) (failing : Nat → Bool)
    (ops : List RegistryOp) : ∀ s : CMState, good_state owner s →
    ops_respect_owner owner ops = true →
    good_state owner (run_registry_ops failing s ops) := by
  induction ops with
  | nil => intro s hs _; exact hs
  | cons op rest ih =>
      intro s hs hown
      cases op with
      | reg ws u t =>
          simp only [ops_respect_owner, Bool.and_eq_true, decide_eq_true_eq] at hown
          exact ih (apply_registry_op failing s (RegistryOp.reg ws u t))
            (connect_preserves_good owner failing s ws u t hs hown.1) hown.2
      | unreg ws =>
          simp only [ops_respect_owner] at hown
          exact ih (apply_registry_op failing s (RegistryOp.unreg ws))
            (disconnect_preserves_good owner s ws hs) hown

theorem ops_respect_owner_append_left (owner : Nat → User)
    (pre suf : List RegistryOp)
    (h : ops_respect_owner owner (pre ++ suf) = true) :
    ops_respect_owner owner pre = true := by
  induction pre with
  | nil => rfl
  | cons op rest ih =>
      cases op with
      | reg ws u t =>
          simp only [List.cons_append, ops_respect_owner, Bool.and_eq_true] at h ⊢
          exact ⟨h.1, ih h.2⟩
      | unreg ws =>
          simp only [List.cons_append, ops_respect_owner] at h ⊢
          exact ih h

def uReviewer : User := { id := 1, username := "alice", role := "reviewer" }

def uAdmin : User := { id := 2, username := "bob", role := "admin" }

def uOperator : User := { id := 3, username := "carol", role := "operator" }

/-- C1 counterexample: the claim quantifies over sequences with
arbitrary user identities and connection handles, but `connect` does
not guard against re-registering a live handle under a different user:
after `connect(h0, alice)` followed by `connect(h0, bob)` the handle
still sits in alice's set while its reverse-lookup entry names bob, so
the forward and reverse maps are inconsistent and the invariant
fails. -/
theorem claim_C1_counterexample :
    ¬ registry_inv (run_registry_ops noFail mkConnectionManager
      [RegistryOp.reg 0 uReviewer 0, RegistryOp.reg 0 uAdmin 0]) := by
  decide

/-- C1 (amended): starting from a fresh manager, for every finite
sequence of `register` (connect) and `unregister` (disconnect) calls
with arbitrary user identities and connection handles — provided each
register call registers a handle under that handle's one fixed owner,
as in the spec's connection model where the owning user identity is
set once at accept and immutable — after each call (after every prefix
of the sequence) the Registry invariant holds: no user entry has an
empty connection set and every connection in some user's set has
exactly one reverse-lookup entry naming a user with that entry's
id. -/
theorem claim_C1_registry_invariant (owner : Nat → User)
    (failing : Nat → Bool) (ops pre suf : List RegistryOp)
    (hsplit : ops = pre ++ suf)
    (hown : ops_respect_owner owner ops = true) :
    registry_inv (run_registry_ops failing mkConnectionManager pre) := by
  have hpre : ops_respect_owner owner pre = true :=
    ops_respect_owner_append_left owner pre suf (hsplit ▸ hown)
  exact (run_registry_ops_good owner failing pre mkConnectionManager
    (good_state_init owner) hpre).2.1

/-- C1 witness: a concrete guarded run — register two handles for two
users, unregister one — with the invariant checked after the
two-register prefix. -/
theorem claim_C1_witness :
    ([RegistryOp.reg 0 uReviewer 0, RegistryOp.reg 1 uAdmin 1,
        RegistryOp.unreg 0] =
      [RegistryOp.reg 0 uReviewer 0, RegistryOp.reg 1 uAdmin 1] ++
        [RegistryOp.unreg 0]) ∧
    registry_inv (run_registry_ops noFail mkConnectionManager
      [RegistryOp.reg 0 uReviewer 0, RegistryOp.reg 1 uAdmin 1]) :=
  ⟨rfl,
    claim_C1_registry_invariant
      (fun ws => if ws = 0 then uReviewer else uAdmin) noFail
      [RegistryOp.reg 0 uReviewer 0, RegistryOp.reg 1 uAdmin 1,
        RegistryOp.unreg 0]
      [RegistryOp.reg 0 uReviewer 0, RegistryOp.reg 1 uAdmin 1]
      [RegistryOp.unreg 0] rfl (by decide)⟩
theorem aset_of_alookup_some {α : Type} (l : List (Nat × α)) (k : Nat) (v : α)
    (h : alookup l k = some v) : aset l k v = l := by
  induction l with
  | nil => simp [alookup] at h
  | cons q rest ih =>
      rcases q with ⟨b, w⟩
      by_cases hb : b = k
      · subst hb
        simp only [alookup, if_pos rfl, ite_true, Option.some.injEq] at h
        simp [aset, h]
      · simp only [alookup, if_neg hb] at h
        simp [aset, hb, ih h]

theorem cmstate_eq (a b : CMState)
    (h1 : a.active_connections = b.active_connections)
    (h2 : a.connection_users = b.connection_users)
    (h3 : a.connection_metadata = b.connection_metadata) : a = b := by
  cases a
  cases b
  simp_all

/-- C8: `disconnect` is idempotent — on any manager state whose dicts
are well formed (unique keys, as Python dicts are), disconnecting the
same handle twice yields exactly the state of disconnecting it once,
and disconnecting a handle that is absent from all three maps leaves
the state unchanged (and, the embedding being total, raises no
error). -/
theorem claim_C8_unregister_idempotent (s : CMState) (ws : Nat)
    (hU : keys_nodup s.connection_users)
    (hM : keys_nodup s.connection_metadata) :
    disconnect (disconnect s ws) ws = disconnect s ws ∧
      (unregistered s ws → disconnect s ws = s) := by
  constructor
  · have hnone : alookup (disconnect s ws).connection_users ws = none := by
      rw [disconnect_connection_users]
      exact alookup_aerase_self _ _ hU
    refine cmstate_eq _ _ ?_ ?_ ?_
    · exact disconnect_active_none _ ws hnone
    · rw [disconnect_connection_users (disconnect s ws) ws]
      exact aerase_of_alookup_none _ _ hnone
    · rw [disconnect_connection_metadata (disconnect s ws) ws,
        disconnect_connection_metadata s ws]
      exact aerase_of_alookup_none _ _ (alookup_aerase_self _ _ hM)
  · intro hun
    obtain ⟨hu, hm, _⟩ := hun
    refine cmstate_eq _ _ ?_ ?_ ?_
    · exact disconnect_active_none _ ws hu
    · rw [disconnect_connection_users]
      exact aerase_of_alookup_none _ _ hu
    · rw [disconnect_connection_metadata]
      exact aerase_of_alookup_none _ _ hm

/-- C8 witness: both parts exercised on the empty manager for handle 0
(absent handle: state unchanged; and twice = once). -/
theorem claim_C8_witness :
    disconnect mkConnectionManager 0 = mkConnectionManager ∧
      disconnect (disconnect mkConnectionManager 0) 0 =
        disconnect mkConnectionManager 0 :=
  ⟨(claim_C8_unregister_idempotent mkConnectionManager 0 (by decide)
      (by decide)).2 (by decide),
    (claim_C8_unregister_idempotent mkConnectionManager 0 (by decide)
      (by decide)).1⟩

/-- C5 counterexample: registering the same handle for the same user a
second time at a later wall-clock time is not a no-op — the metadata
entry (both `connected_at` and `last_heartbeat`) is overwritten with
the new time, so the resulting state differs from the state before the
duplicate call and `connected_at` is not immutable. -/
theorem claim_C5_counterexample :
    (connect noFail ((connect noFail mkConnectionManager 0 uReviewer 0).1)
        0 uReviewer 5).1 ≠ (connect noFail mkConnectionManager 0 uReviewer 0).1 ∧
      alookup ((connect noFail mkConnectionManager 0 uReviewer 0).1).connection_metadata 0 =
        some { connected_at := 0, last_heartbeat := 0 } ∧
      alookup ((connect noFail ((connect noFail mkConnectionManager 0 uReviewer 0).1)
          0 uReviewer 5).1).connection_metadata 0 =
        some { connected_at := 5, last_heartbeat := 5 } := by
  refine ⟨?_, by decide, by decide⟩
  decide

/-- C5 (amended): a duplicate `register` with the same connection and
user (the handle already lives in the user's set and the reverse
lookup names that user, and the welcome send succeeds) leaves the
connection sets and the reverse-lookup map unchanged, but overwrites
the connection's metadata entry: both `connected_at` and
`last_heartbeat` are reset to the time of the duplicate call. -/
theorem claim_C5_duplicate_register (failing : Nat → Bool) (s : CMState)
    (ws : Nat) (u : User) (t2 : Int) (hf : failing ws = false)
    (hreg : alookup s.connection_users ws = some u)
    (conns : List Nat)
    (hact : alookup s.active_connections u.id = some conns)
    (hmem : ws ∈ conns) :
    (connect failing s ws u t2).1.active_connections = s.active_connections ∧
      (connect failing s ws u t2).1.connection_users = s.connection_users ∧
      alookup (connect failing s ws u t2).1.connection_metadata ws =
        some { connected_at := t2, last_heartbeat := t2 } := by
  have hstate : (connect failing s ws u t2).1 = connect_register s ws u t2 := by
    rw [connect, send_personal_message_ok _ _ _ _ hf]
  rw [hstate]
  refine ⟨?_, ?_, ?_⟩
  · rw [connect_register_active_existing s ws u t2 conns hact, if_pos hmem]
    exact aset_of_alookup_some _ _ _ hact
  · rw [connect_register_users]
    exact aset_of_alookup_some _ _ _ hreg
  · rw [connect_register_metadata]
    exact alookup_aset_self _ _ _

/-- C5 witness: duplicate registration of handle 0 for the same user on
a concrete one-connection state. -/
theorem claim_C5_witness :
    (connect noFail ((connect noFail mkConnectionManager 0 uReviewer 0).1)
        0 uReviewer 5).1.connection_users =
      ((connect noFail mkConnectionManager 0 uReviewer 0).1).connection_users ∧
      alookup ((connect noFail ((connect noFail mkConnectionManager 0 uReviewer 0).1)
          0 uReviewer 5).1).connection_metadata 0 =
        some { connected_at := 5, last_heartbeat := 5 } :=
  ⟨(claim_C5_duplicate_register noFail
      ((connect noFail mkConnectionManager 0 uReviewer 0).1) 0 uReviewer 5
      rfl (by decide) [0] (by decide) (by decide)).2.1,
    (claim_C5_duplicate_register noFail
      ((connect noFail mkConnectionManager 0 uReviewer 0).1) 0 uReviewer 5
      rfl (by decide) [0] (by decide) (by decide)).2.2⟩
theorem send_personal_message_checked_ok (failing : Nat → Bool) (s : CMState)
    (m : Message) (ws : Nat) (h : failing ws = false) :
    send_personal_message_checked failing s m ws =
      Except.ok (s, [Event.sent ws m]) := by
  simp [send_personal_message_checked, send_personal_message_attempt, h]

theorem send_user_message_loop_nofail (g : Nat → Bool) (m : Message)
    (hg : ∀ w, g w = false) (l : List Nat) :
    ∀ (st : CMState) (evs : List Event) (disc : List Nat),
    send_user_message_loop g m l (st, evs, disc) =
      (st, evs ++ l.map (fun w => Event.sent w m), disc) := by
  induction l with
  | nil =>
      intro st evs disc
      simp [send_user_message_loop]
  | cons w rest ih =>
      intro st evs disc
      simp [send_user_message_loop, send_personal_message_checked_ok g st m w (hg w), ih]

theorem send_user_message_nofail (g : Nat → Bool) (s : CMState)
    (m : Message) (uid : Nat) (hg : ∀ w, g w = false) :
    send_user_message g s m uid =
      (s, ((alookup s.active_connections uid).getD []).map
        (fun w => Event.sent w m)) := by
  unfold send_user_message
  cases h : alookup s.active_connections uid with
  | none => simp
  | some conns => simp [send_user_message_loop_nofail g m hg conns s [] []]

theorem disconnect_unregisters (s : CMState) (ws : Nat)
    (hwf : registry_wf s) (hinv : registry_inv s) :
    unregistered (disconnect s ws) ws := by
  obtain ⟨hwA, hwU, hwM, hwS⟩ := hwf
  obtain ⟨h1, h2⟩ := hinv
  refine ⟨?_, ?_, ?_⟩
  · rw [disconnect_connection_users]
    exact alookup_aerase_self _ _ hwU
  · rw [disconnect_connection_metadata]
    exact alookup_aerase_self _ _ hwM
  · intro p hp hmem
    cases hl : alookup s.connection_users ws with
    | none =>
        rw [disconnect_active_none s ws hl] at hp
        have := h2 p hp ws hmem
        rw [hl] at this
        simp at this
    | some u =>
        cases hact : alookup s.active_connections u.id with
        | none =>
            rw [disconnect_active_no_entry s ws u hl hact] at hp
            have hid := h2 p hp ws hmem
            rw [hl] at hid
            have hid2 : u.id = p.1 := by simpa using hid
            have hm : alookup s.active_connections p.1 = some p.2 :=
              alookup_of_mem _ _ _ hwA hp
            rw [← hid2, hact] at hm
            exact Option.noConfusion hm
        | some conns =>
            by_cases hc : conns.filter (fun w => w ≠ ws) = []
            · rw [disconnect_active_empty s ws u conns hl hact hc] at hp
              obtain ⟨hpm, hpne⟩ := (mem_aerase_iff _ _ _ hwA).mp hp
              have hid := h2 p hpm ws hmem
              rw [hl] at hid
              have hid2 : u.id = p.1 := by simpa using hid
              exact hpne hid2.symm
            · rw [disconnect_active_filter s ws u conns hl hact hc] at hp
              rcases (mem_aset_iff _ _ _ _ hwA).mp hp with hpe | ⟨hpm, hpne⟩
              · rw [hpe] at hmem
                have := List.of_mem_filter hmem
                simp at this
              · have hid := h2 p hpm ws hmem
                rw [hl] at hid
                have hid2 : u.id = p.1 := by simpa using hid
                exact hpne hid2.symm

theorem disconnect_owner_lookup_filter (s : CMState) (ws : Nat) (u : User)
    (conns : List Nat)
    (hl : alookup s.connection_users ws = some u)
    (hact : alookup s.active_connections u.id = some conns)
    (hc : ¬ conns.filter (fun w => w ≠ ws) = []) :
    alookup (disconnect s ws).active_connections u.id =
      some (conns.filter (fun w => w ≠ ws)) := by
  rw [disconnect_active_filter s ws u conns hl hact hc]
  exact alookup_aset_self _ _ _

theorem sent_to_map_false (l : List Nat) (m : Message) (ws : Nat)
    (h : ws ∉ l) : sent_to (l.map (fun w => Event.sent w m)) ws = false := by
  induction l with
  | nil => simp [sent_to]
  | cons w rest ih =>
      simp only [List.mem_cons, not_or] at h
      have hne : (w == ws) = false := by
        simp [Ne.symm h.1]
      simp [sent_to, hne]
      have := ih h.2
      simpa [sent_to] using this
def msgA : Message := { mtype := "notification", data := [] }

def sC2 : CMState :=
  (connect noFail ((connect noFail mkConnectionManager 0 uReviewer 0).1)
    1 uReviewer 1).1

def failing0 : Nat → Bool := fun ws => ws == 0

/-- C2 counterexample: on a state where user 1 holds handles 0 and 1
and the transport write on handle 0 raises, one `send_personal_message`
to handle 0 produces no event at all — in particular no close-frame
attempt — while unregistering the handle.  The connection is
unregistered but never closed, refuting the "unregistered and closed"
part of the claim. -/
theorem claim_C2_counterexample :
    (send_personal_message failing0 sC2 msgA 0).2 = [] ∧
      closes_conn (send_personal_message failing0 sC2 msgA 0).2 0 = false ∧
      alookup (send_personal_message failing0 sC2 msgA 0).1.connection_users 0 =
        none := by
  refine ⟨?_, ?_, ?_⟩ <;> decide

/-- C2 (amended): for every registered connection whose underlying
send fails, `send_personal_message` treats the failure as fatal for
that connection only: after exactly one failed send attempt the
connection is unregistered (removed from all three Registry maps,
though no close frame is sent), the error is never propagated (the
call returns the disconnected state with no events), and a subsequent
`send_user_message` for its owning user no longer attempts delivery to
it while still delivering to each of the user's other connections. -/
theorem claim_C2_send_failure_isolated (failing : Nat → Bool) (s : CMState)
    (ws : Nat) (u : User) (m : Message)
    (hwf : registry_wf s) (hinv : registry_inv s)
    (hf : failing ws = true)
    (hreg : alookup s.connection_users ws = some u) :
    send_personal_message failing s m ws = (disconnect s ws, []) ∧
      unregistered (disconnect s ws) ws ∧
      ∀ (g : Nat → Bool) (m2 : Message), (∀ w, g w = false) →
        sent_to (send_user_message g (disconnect s ws) m2 u.id).2 ws = false ∧
        ∀ conns, alookup s.active_connections u.id = some conns →
          ∀ w ∈ conns, w ≠ ws →
            Event.sent w m2 ∈ (send_user_message g (disconnect s ws) m2 u.id).2 := by
  have hb := disconnect_unregisters s ws hwf hinv
  refine ⟨send_personal_message_fail failing s m ws hf, hb, ?_⟩
  intro g m2 hg
  rw [send_user_message_nofail g _ m2 u.id hg]
  constructor
  · apply sent_to_map_false
    intro hmem
    cases hlook : alookup (disconnect s ws).active_connections u.id with
    | none => rw [hlook] at hmem; simp at hmem
    | some c =>
        rw [hlook] at hmem
        simp only [Option.getD_some] at hmem
        exact hb.2.2 (u.id, c) (mem_of_alookup _ _ _ hlook) hmem
  · intro conns hact w hw hwne
    have hfil : w ∈ conns.filter (fun x => x ≠ ws) :=
      List.mem_filter.mpr ⟨hw, by simp [hwne]⟩
    have hc : ¬ conns.filter (fun x => x ≠ ws) = [] := by
      intro hce
      rw [hce] at hfil
      simp at hfil
    rw [disconnect_owner_lookup_filter s ws u conns hreg hact hc]
    simp only [Option.getD_some]
    exact List.mem_map_of_mem _ hfil

/-- C2 witness: concrete two-connection state; after handle 0 fails
and is evicted, a fresh `send_user_message` to the owner reaches
handle 1 and never targets handle 0. -/
theorem claim_C2_witness :
    unregistered (disconnect sC2 0) 0 ∧
      sent_to (send_user_message noFail (disconnect sC2 0) msgA uReviewer.id).2
          0 = false ∧
      Event.sent 1 msgA ∈
        (send_user_message noFail (disconnect sC2 0) msgA uReviewer.id).2 :=
  ⟨(claim_C2_send_failure_isolated failing0 sC2 0 uReviewer msgA (by decide)
      (by decide) (by decide) (by decide)).2.1,
    ((claim_C2_send_failure_isolated failing0 sC2 0 uReviewer msgA (by decide)
      (by decide) (by decide) (by decide)).2.2 noFail msgA (fun _ => rfl)).1,
    ((claim_C2_send_failure_isolated failing0 sC2 0 uReviewer msgA (by decide)
      (by decide) (by decide) (by decide)).2.2 noFail msgA (fun _ => rfl)).2
      [0, 1] (by decide) 1 (by decide) (by decide)⟩
theorem send_personal_message_checked_isOk (failing : Nat → Bool)
    (s : CMState) (m : Message) (ws : Nat) :
    ∃ st2 evs2, send_personal_message_checked failing s m ws =
      Except.ok (st2, evs2) := by
  cases hf : failing ws with
  | false => exact ⟨s, [Event.sent ws m], send_personal_message_checked_ok failing s m ws hf⟩
  | true =>
      refine ⟨disconnect s ws, [], ?_⟩
      simp [send_personal_message_checked, send_personal_message_attempt, hf]

theorem send_user_message_loop_disc (failing : Nat → Bool) (m : Message)
    (l : List Nat) : ∀ (st : CMState) (evs : List Event) (disc : List Nat),
    (send_user_message_loop failing m l (st, evs, disc)).2.2 = disc := by
  induction l with
  | nil =>
      intro st evs disc
      simp [send_user_message_loop]
  | cons w rest ih =>
      intro st evs disc
      obtain ⟨st2, evs2, hck⟩ := send_personal_message_checked_isOk failing st m w
      simp [send_user_message_loop, hck, ih]

/-- C10: `send_personal_message` is total at its interface — its
explicit-exception form always returns `ok` (of exactly the total
transformer's result since the `except` branch catches everything), so
the exception-collecting branch of `send_user_message` is unreachable:
the `disconnected_connections` accumulator comes out of the loop
exactly as it went in (always empty at the call site), and
`send_user_message` itself never raises. -/
theorem claim_C10_send_never_raises :
    (∀ (failing : Nat → Bool) (s : CMState) (m : Message) (ws : Nat),
      send_personal_message_checked failing s m ws =
        Except.ok (send_personal_message failing s m ws)) ∧
      ∀ (failing : Nat → Bool) (m : Message) (l : List Nat) (st : CMState)
        (evs : List Event) (disc : List Nat),
        (send_user_message_loop failing m l (st, evs, disc)).2.2 = disc := by
  constructor
  · intro failing s m ws
    cases hf : failing ws with
    | false =>
        simp [send_personal_message, send_personal_message_checked,
          send_personal_message_attempt, hf]
    | true =>
        simp [send_personal_message, send_personal_message_checked,
          send_personal_message_attempt, hf]
  · intro failing m l st evs disc
    exact send_user_message_loop_disc failing m l st evs disc

/-- Handles the liveness sweep selects for eviction: metadata entries
whose `last_heartbeat` lies strictly below `now - 2 * interval`. -/
def stale_handles (s : CMState) (now interval : Int) : List Nat :=
  s.connection_metadata.filterMap
    (fun p => if p.2.last_heartbeat < now - interval * 2 then some p.1 else none)

theorem cleanup_fold_spec (L : List Nat) : ∀ (st : CMState) (evs : List Event),
    L.foldl (fun acc ws =>
        (disconnect acc.1 ws, acc.2 ++ [Event.closed ws 1000 "Heartbeat timeout"]))
      (st, evs) =
      (L.foldl (fun s2 w => disconnect s2 w) st,
        evs ++ L.map (fun ws => Event.closed ws 1000 "Heartbeat timeout")) := by
  induction L with
  | nil =>
      intro st evs
      simp
  | cons w rest ih =>
      intro st evs
      simp [List.foldl_cons, ih]

theorem cleanup_spec (s : CMState) (now interval : Int) :
    cleanup_stale_connections s now interval =
      ((stale_handles s now interval).foldl (fun s2 w => disconnect s2 w) s,
        (stale_handles s now interval).map
          (fun ws => Event.closed ws 1000 "Heartbeat timeout")) := by
  unfold cleanup_stale_connections stale_handles
  rw [cleanup_fold_spec]
  simp

theorem mem_stale_handles (s : CMState) (now interval : Int) (w : Nat)
    (hwM : keys_nodup s.connection_metadata) :
    w ∈ stale_handles s now interval ↔
      ∃ cm, alookup s.connection_metadata w = some cm ∧
        cm.last_heartbeat < now - interval * 2 := by
  unfold stale_handles
  rw [List.mem_filterMap]
  constructor
  · rintro ⟨p, hp, hite⟩
    by_cases hc : p.2.last_heartbeat < now - interval * 2
    · rw [if_pos hc] at hite
      obtain he : p.1 = w := by simpa using hite
      refine ⟨p.2, ?_, hc⟩
      rw [← he]
      exact alookup_of_mem _ _ _ hwM (by rw [← Prod.mk.eta (p := p)] at hp; exact hp)
    · rw [if_neg hc] at hite
      exact Option.noConfusion hite
  · rintro ⟨cm, hlook, hc⟩
    exact ⟨(w, cm), mem_of_alookup _ _ _ hlook, by simp [hc]⟩

theorem alookup_aerase_of_none {α : Type} (l : List (Nat × α)) (k w : Nat)
    (h : alookup l w = none) : alookup (aerase l k) w = none := by
  by_cases hkw : w = k
  · subst hkw
    rw [aerase_of_alookup_none l _ ?_]
    · exact h
    · exact h
  · rw [alookup_aerase_ne _ _ _ hkw]
    exact h

theorem disconnect_active_shrinks (s : CMState) (ws : Nat) :
    ∀ p ∈ (disconnect s ws).active_connections,
      ∃ q ∈ s.active_connections, p.1 = q.1 ∧ ∀ w ∈ p.2, w ∈ q.2 := by
  intro p hp
  cases hl : alookup s.connection_users ws with
  | none =>
      rw [disconnect_active_none s ws hl] at hp
      exact ⟨p, hp, rfl, fun w hw => hw⟩
  | some u =>
      cases hact : alookup s.active_connections u.id with
      | none =>
          rw [disconnect_active_no_entry s ws u hl hact] at hp
          exact ⟨p, hp, rfl, fun w hw => hw⟩
      | some conns =>
          by_cases hc : conns.filter (fun w => w ≠ ws) = []
          · rw [disconnect_active_empty s ws u conns hl hact hc] at hp
            exact ⟨p, mem_aerase_sub _ _ _ hp, rfl, fun w hw => hw⟩
          · rw [disconnect_active_filter s ws u conns hl hact hc] at hp
            rcases mem_aset_sub _ _ _ _ hp with hpe | hpm
            · refine ⟨(u.id, conns), mem_of_alookup _ _ _ hact, ?_, ?_⟩
              · rw [hpe]
              · intro w hw
                rw [hpe] at hw
                exact List.mem_of_mem_filter hw
            · exact ⟨p, hpm, rfl, fun w hw => hw⟩

theorem unregistered_disconnect_mono (s : CMState) (ws w : Nat)
    (h : unregistered s w) : unregistered (disconnect s ws) w := by
  obtain ⟨hu, hm, hsets⟩ := h
  refine ⟨?_, ?_, ?_⟩
  · rw [disconnect_connection_users]
    exact alookup_aerase_of_none _ _ _ hu
  · rw [disconnect_connection_metadata]
    exact alookup_aerase_of_none _ _ _ hm
  · intro p hp hmem
    obtain ⟨q, hq, _, hsub⟩ := disconnect_active_shrinks s ws p hp
    exact hsets q hq (hsub w hmem)
theorem foldl_disconnect_wf_inv (L : List Nat) : ∀ s : CMState,
    registry_wf s → registry_inv s →
    registry_wf (L.foldl (fun s2 w => disconnect s2 w) s) ∧
      registry_inv (L.foldl (fun s2 w => disconnect s2 w) s) := by
  induction L with
  | nil => intro s hwf hinv; exact ⟨hwf, hinv⟩
  | cons a rest ih =>
      intro s hwf hinv
      simp only [List.foldl_cons]
      exact ih (disconnect s a) (disconnect_preserves_wf s a hwf)
        (disconnect_preserves_inv s a hwf hinv)

theorem foldl_disconnect_unregistered_mono (L : List Nat) : ∀ (s : CMState)
    (w : Nat), unregistered s w →
    unregistered (L.foldl (fun s2 x => disconnect s2 x) s) w := by
  induction L with
  | nil => intro s w h; exact h
  | cons a rest ih =>
      intro s w h
      simp only [List.foldl_cons]
      exact ih (disconnect s a) w (unregistered_disconnect_mono s a w h)

theorem foldl_disconnect_unregisters (L : List Nat) : ∀ (s : CMState)
    (w : Nat), registry_wf s → registry_inv s → w ∈ L →
    unregistered (L.foldl (fun s2 x => disconnect s2 x) s) w := by
  induction L with
  | nil => intro s w _ _ h; simp at h
  | cons a rest ih =>
      intro s w hwf hinv hmem
      simp only [List.foldl_cons]
      by_cases hwa : w = a
      · subst hwa
        exact foldl_disconnect_unregistered_mono rest (disconnect s w) w
          (disconnect_unregisters s w hwf hinv)
      · have hw : w ∈ rest := by
          rcases List.mem_cons.mp hmem with h | h
          · exact absurd h hwa
          · exact h
        exact ih (disconnect s a) w (disconnect_preserves_wf s a hwf)
          (disconnect_preserves_inv s a hwf hinv) hw

theorem disconnect_keeps_member (s : CMState) (ws w : Nat)
    (hwA : keys_nodup s.active_connections) (hwne : w ≠ ws)
    (p : Nat × List Nat) (hp : p ∈ s.active_connections) (hw : w ∈ p.2) :
    ∃ c', alookup (disconnect s ws).active_connections p.1 = some c' ∧
      w ∈ c' := by
  have hlookp : alookup s.active_connections p.1 = some p.2 :=
    alookup_of_mem _ _ _ hwA hp
  cases hl : alookup s.connection_users ws with
  | none =>
      rw [disconnect_active_none s ws hl]
      exact ⟨p.2, hlookp, hw⟩
  | some u =>
      cases hact : alookup s.active_connections u.id with
      | none =>
          rw [disconnect_active_no_entry s ws u hl hact]
          exact ⟨p.2, hlookp, hw⟩
      | some conns =>
          by_cases hpu : p.1 = u.id
          · have hpc : conns = p.2 := by
              rw [hpu, hact] at hlookp
              exact Option.some.inj hlookp
            have hwf2 : w ∈ conns.filter (fun x => x ≠ ws) :=
              List.mem_filter.mpr ⟨hpc ▸ hw, by simp [hwne]⟩
            have hc : ¬ conns.filter (fun x => x ≠ ws) = [] := by
              intro hce
              rw [hce] at hwf2
              simp at hwf2
            rw [disconnect_active_filter s ws u conns hl hact hc, hpu]
            exact ⟨_, alookup_aset_self _ _ _, hwf2⟩
          · by_cases hc : conns.filter (fun x => x ≠ ws) = []
            · rw [disconnect_active_empty s ws u conns hl hact hc,
                alookup_aerase_ne _ _ _ hpu]
              exact ⟨p.2, hlookp, hw⟩
            · rw [disconnect_active_filter s ws u conns hl hact hc,
                alookup_aset_ne _ _ _ _ hpu]
              exact ⟨p.2, hlookp, hw⟩

theorem foldl_disconnect_keeps_member (L : List Nat) : ∀ (s : CMState)
    (w : Nat), registry_wf s → w ∉ L →
    ∀ p ∈ s.active_connections, w ∈ p.2 →
    ∃ c', alookup ((L.foldl (fun s2 x => disconnect s2 x) s)).active_connections
        p.1 = some c' ∧ w ∈ c' := by
  induction L with
  | nil =>
      intro s w hwf _ p hp hw
      exact ⟨p.2, alookup_of_mem _ _ _ hwf.1 hp, hw⟩
  | cons a rest ih =>
      intro s w hwf hnm p hp hw
      simp only [List.mem_cons, not_or] at hnm
      obtain ⟨c', hc', hwc⟩ := disconnect_keeps_member s a w hwf.1 hnm.1 p hp hw
      simp only [List.foldl_cons]
      exact ih (disconnect s a) w (disconnect_preserves_wf s a hwf) hnm.2
        (p.1, c') (mem_of_alookup _ _ _ hc') hwc

theorem foldl_disconnect_users_lookup (L : List Nat) : ∀ (s : CMState)
    (w : Nat), w ∉ L →
    alookup ((L.foldl (fun s2 x => disconnect s2 x) s)).connection_users w =
      alookup s.connection_users w := by
  induction L with
  | nil => intro s w _; rfl
  | cons a rest ih =>
      intro s w hnm
      simp only [List.mem_cons, not_or] at hnm
      simp only [List.foldl_cons]
      rw [ih (disconnect s a) w hnm.2, disconnect_connection_users,
        alookup_aerase_ne _ _ _ hnm.1]

theorem foldl_disconnect_metadata_lookup (L : List Nat) : ∀ (s : CMState)
    (w : Nat), w ∉ L →
    alookup ((L.foldl (fun s2 x => disconnect s2 x) s)).connection_metadata w =
      alookup s.connection_metadata w := by
  induction L with
  | nil => intro s w _; rfl
  | cons a rest ih =>
      intro s w hnm
      simp only [List.mem_cons, not_or] at hnm
      simp only [List.foldl_cons]
      rw [ih (disconnect s a) w hnm.2, disconnect_connection_metadata,
        alookup_aerase_ne _ _ _ hnm.1]

theorem closes_conn_map_false (l : List Nat) (w : Nat) (h : w ∉ l) :
    closes_conn (l.map (fun ws => Event.closed ws 1000 "Heartbeat timeout"))
      w = false := by
  induction l with
  | nil => simp [closes_conn]
  | cons a rest ih =>
      simp only [List.mem_cons, not_or] at h
      have hne : (a == w) = false := by
        simp [Ne.symm h.1]
      simp only [List.map_cons, closes_conn, List.any_cons, hne]
      have := ih h.2
      simpa [closes_conn] using this
/-- C4 counterexample: boundary of the staleness test.  A connection
whose `last_heartbeat` is exactly `2 * interval` in the past (no
heartbeat for ≥ 2× the interval, as the claim reads) is NOT evicted:
the sweep uses a strict `<` against `now - 2 * interval`, so the
sweep emits no close attempt and the connection stays registered. -/
theorem claim_C4_counterexample :
    (cleanup_stale_connections
        ((connect noFail mkConnectionManager 0 uReviewer 0).1) 60 30).2 = [] ∧
      alookup (cleanup_stale_connections
          ((connect noFail mkConnectionManager 0 uReviewer 0).1)
          60 30).1.connection_users 0 = some uReviewer := by
  refine ⟨?_, ?_⟩ <;> decide

/-- C4 (amended): on each liveness sweep, every registered connection
whose `last_heartbeat` lies strictly more than `2 * interval` in the
past (`last_heartbeat < now - 2 * interval`) is unregistered and a
close frame with code 1000 is attempted on it, and every connection
whose heartbeat is at most `2 * interval` old is left untouched: its
metadata entry is unchanged, its reverse-lookup entry is unchanged, it
stays in its user's connection set, and no close is attempted on
it. -/
theorem claim_C4_liveness_sweep (s : CMState) (now interval : Int)
    (hwf : registry_wf s) (hinv : registry_inv s) :
    (∀ p ∈ s.connection_metadata,
        p.2.last_heartbeat < now - interval * 2 →
          unregistered (cleanup_stale_connections s now interval).1 p.1 ∧
            Event.closed p.1 1000 "Heartbeat timeout" ∈
              (cleanup_stale_connections s now interval).2) ∧
      ∀ p ∈ s.connection_metadata,
        ¬ p.2.last_heartbeat < now - interval * 2 →
          alookup (cleanup_stale_connections s now
              interval).1.connection_metadata p.1 = some p.2 ∧
            alookup (cleanup_stale_connections s now
              interval).1.connection_users p.1 =
              alookup s.connection_users p.1 ∧
            (∀ q ∈ s.active_connections, p.1 ∈ q.2 →
              ∃ c', alookup (cleanup_stale_connections s now
                  interval).1.active_connections q.1 = some c' ∧ p.1 ∈ c') ∧
            closes_conn (cleanup_stale_connections s now interval).2 p.1 =
              false := by
  have hwM : keys_nodup s.connection_metadata := hwf.2.2.1
  rw [cleanup_spec]
  constructor
  · intro p hp hlt
    have hlook : alookup s.connection_metadata p.1 = some p.2 :=
      alookup_of_mem _ _ _ hwM (by rw [← Prod.mk.eta (p := p)] at hp; exact hp)
    have hmem : p.1 ∈ stale_handles s now interval :=
      (mem_stale_handles s now interval p.1 hwM).mpr ⟨p.2, hlook, hlt⟩
    exact ⟨foldl_disconnect_unregisters _ s p.1 hwf hinv hmem,
      List.mem_map_of_mem _ hmem⟩
  · intro p hp hge
    have hlook : alookup s.connection_metadata p.1 = some p.2 :=
      alookup_of_mem _ _ _ hwM (by rw [← Prod.mk.eta (p := p)] at hp; exact hp)
    have hnm : p.1 ∉ stale_handles s now interval := by
      intro hmem
      obtain ⟨cm, hcm, hclt⟩ :=
        (mem_stale_handles s now interval p.1 hwM).mp hmem
      rw [hlook] at hcm
      exact hge (Option.some.inj hcm ▸ hclt)
    refine ⟨?_, ?_, ?_, ?_⟩
    · rw [foldl_disconnect_metadata_lookup _ s p.1 hnm]
      exact hlook
    · exact foldl_disconnect_users_lookup _ s p.1 hnm
    · intro q hq hqm
      exact foldl_disconnect_keeps_member _ s p.1 hwf hnm q hq hqm
    · exact closes_conn_map_false _ p.1 hnm

def sC4 : CMState :=
  (connect noFail ((connect noFail mkConnectionManager 0 uReviewer (-1)).1)
    1 uAdmin 50).1

/-- C4 witness: with heartbeats at -1 (stale) and 50 (fresh) and a
sweep at time 60 with interval 30 (cutoff 0), handle 0 is evicted and
closed with code 1000 while handle 1 keeps its metadata and draws no
close. -/
theorem claim_C4_witness :
    unregistered (cleanup_stale_connections sC4 60 30).1 0 ∧
      Event.closed 0 1000 "Heartbeat timeout" ∈
        (cleanup_stale_connections sC4 60 30).2 ∧
      alookup (cleanup_stale_connections sC4 60 30).1.connection_metadata 1 =
        some { connected_at := 50, last_heartbeat := 50 } ∧
      closes_conn (cleanup_stale_connections sC4 60 30).2 1 = false :=
  ⟨((claim_C4_liveness_sweep sC4 60 30 (by decide) (by decide)).1
      (0, { connected_at := -1, last_heartbeat := -1 }) (by decide)
      (by decide)).1,
    ((claim_C4_liveness_sweep sC4 60 30 (by decide) (by decide)).1
      (0, { connected_at := -1, last_heartbeat := -1 }) (by decide)
      (by decide)).2,
    ((claim_C4_liveness_sweep sC4 60 30 (by decide) (by decide)).2
      (1, { connected_at := 50, last_heartbeat := 50 }) (by decide)
      (by decide)).1,
    ((claim_C4_liveness_sweep sC4 60 30 (by decide) (by decide)).2
      (1, { connected_at := 50, last_heartbeat := 50 }) (by decide)
      (by decide)).2.2.2⟩
/-- C7 counterexample: the handshake rejects a missing token and an
invalid token with the SAME close code 4001, refuting the pairwise
distinctness of the rejection codes. -/
theorem claim_C7_counterexample :
    rejection_code (websocket_endpoint_auth none (fun _ => AuthOutcome.noUser)) =
      rejection_code (websocket_endpoint_auth (some "token")
        (fun _ => AuthOutcome.noUser)) ∧
      rejection_code (websocket_endpoint_auth none
        (fun _ => AuthOutcome.noUser)) = some 4001 :=
  ⟨rfl, rfl⟩

/-- C7 (amended): a handshake with an absent token is rejected with
close code 4001, a handshake whose token fails verification (or whose
verification raises) is rejected with the SAME code 4001 (in the 4000+
custom range), and heartbeat-timeout eviction closes connections with
code 1000, distinct from 4001 but not in the 4000+ range; the three
outcomes are thus not pairwise distinct. -/
theorem claim_C7_close_codes :
    (∀ verify : String → AuthOutcome,
      websocket_endpoint_auth none verify =
        WsEndpointResult.rejected 4001 "Missing authentication token") ∧
      (∀ t : String,
        websocket_endpoint_auth (some t) (fun _ => AuthOutcome.noUser) =
          WsEndpointResult.rejected 4001 "Invalid token") ∧
      (∀ t : String,
        websocket_endpoint_auth (some t) (fun _ => AuthOutcome.err) =
          WsEndpointResult.rejected 4001 "Authentication failed") ∧
      (∀ (s : CMState) (now interval : Int),
        ((cleanup_stale_connections s now interval).2.all
          (fun e =>
            match e with
            | Event.closed _ c _ => c == 1000
            | Event.sent _ _ => true)) = true) ∧
      4000 ≤ 4001 ∧ (1000 : Nat) ≠ 4001 := by
  refine ⟨fun _ => rfl, fun _ => rfl, fun _ => rfl, ?_, by decide, by decide⟩
  intro s now interval
  rw [cleanup_spec]
  simp

theorem get_connected_users_step_eq (s : CMState)
    (acc : List ConnectedUserEntry) (p : Nat × List Nat) :
    get_connected_users_step s acc p =
      acc ++ (get_connected_users_step s [] p) := by
  rcases p with ⟨uid, conns⟩
  cases conns with
  | nil => simp [get_connected_users_step]
  | cons ws rest =>
      cases h : alookup s.connection_users ws with
      | none => simp [get_connected_users_step, h]
      | some u => simp [get_connected_users_step, h]

theorem get_connected_users_foldl (s : CMState) (l : List (Nat × List Nat)) :
    ∀ acc : List ConnectedUserEntry,
    l.foldl (get_connected_users_step s) acc =
      acc ++ l.foldl (get_connected_users_step s) [] := by
  induction l with
  | nil => intro acc; simp
  | cons p rest ih =>
      intro acc
      rw [List.foldl_cons, List.foldl_cons, ih (get_connected_users_step s acc p),
        ih (get_connected_users_step s [] p),
        get_connected_users_step_eq s acc p, List.append_assoc]

/-- C6 counterexample: user 1 is connected twice — handle 0 with
`connected_at`/`last_heartbeat` 0 and handle 1 with both 1.  The
snapshot reports the single row straight off handle 0's metadata:
`last_heartbeat = 0`, not the latest heartbeat (1) over the user's
connections, refuting the aggregation part of the claim. -/
theorem claim_C6_counterexample :
    get_connected_users sC2 =
      [{ user_id := "1", username := "alice", role := "reviewer",
         connection_count := 2, connected_at := some 0,
         last_heartbeat := some 0 }] ∧
      alookup sC2.connection_metadata 1 =
        some { connected_at := 1, last_heartbeat := 1 } :=
  ⟨by decide, by decide⟩

/-- C6 (amended): on every Registry state satisfying the invariant
(and whose live connections all carry metadata, as the manager
maintains), `get_connected_users` returns exactly one row per
connected user; each row's `connection_count` is the size of the
user's connection set, and its `connected_at`/`last_heartbeat` are the
metadata of one arbitrary (the first) connection of that user — not
the earliest connect time or the latest heartbeat over the user's
connections. -/
theorem claim_C6_snapshot (s : CMState) (hinv : registry_inv s)
    (hmc : meta_covers s) :
    (get_connected_users s).length = s.active_connections.length ∧
      ∀ p ∈ s.active_connections, ∀ ws rest, p.2 = ws :: rest →
        ∃ u m, alookup s.connection_users ws = some u ∧
          alookup s.connection_metadata ws = some m ∧
          { user_id := toString u.id, username := u.username, role := u.role,
            connection_count := p.2.length,
            connected_at := some m.connected_at,
            last_heartbeat := some m.last_heartbeat : ConnectedUserEntry } ∈
            get_connected_users s := by
  obtain ⟨h1, h2⟩ := hinv
  constructor
  · unfold get_connected_users
    have hgen : ∀ l : List (Nat × List Nat),
        (∀ p ∈ l, p ∈ s.active_connections) →
        (l.foldl (get_connected_users_step s) []).length = l.length := by
      intro l
      induction l with
      | nil => intro _; simp
      | cons p rest ih =>
          intro hsub
          rw [List.foldl_cons, get_connected_users_foldl s rest]
          have hp : p ∈ s.active_connections := hsub p (List.mem_cons_self _ _)
          have hne := h1 p hp
          rcases hconns : p.2 with _ | ⟨ws, tail⟩
          · exact absurd hconns hne
          · have hli := h2 p hp ws (by rw [hconns]; exact List.mem_cons_self _ _)
            obtain ⟨u, hu⟩ : ∃ u, alookup s.connection_users ws = some u := by
              cases hl : alookup s.connection_users ws with
              | none => rw [hl] at hli; simp at hli
              | some x => exact ⟨x, rfl⟩
            rw [List.length_append]
            have hlen1 : (get_connected_users_step s [] p).length = 1 := by
              rcases p with ⟨uid, conns⟩
              simp only at hconns
              subst hconns
              simp [get_connected_users_step, hu]
            rw [hlen1, ih (fun q hq => hsub q (List.mem_cons_of_mem _ hq))]
            simp [List.length_cons]
            omega
    exact hgen s.active_connections (fun q hq => hq)
  · intro p hp ws rest hconns
    have hli := h2 p hp ws (by rw [hconns]; exact List.mem_cons_self _ _)
    obtain ⟨u, hu⟩ : ∃ u, alookup s.connection_users ws = some u := by
      cases hl : alookup s.connection_users ws with
      | none => rw [hl] at hli; simp at hli
      | some x => exact ⟨x, rfl⟩
    have hms := hmc p hp ws (by rw [hconns]; exact List.mem_cons_self _ _)
    obtain ⟨m, hm⟩ : ∃ m, alookup s.connection_metadata ws = some m := by
      cases hl : alookup s.connection_metadata ws with
      | none => rw [hl] at hms; simp at hms
      | some x => exact ⟨x, rfl⟩
    refine ⟨u, m, hu, hm, ?_⟩
    unfold get_connected_users
    have hgen : ∀ l : List (Nat × List Nat), p ∈ l →
        { user_id := toString u.id, username := u.username, role := u.role,
          connection_count := p.2.length,
          connected_at := some m.connected_at,
          last_heartbeat := some m.last_heartbeat : ConnectedUserEntry } ∈
          l.foldl (get_connected_users_step s) [] := by
      intro l
      induction l with
      | nil => intro h; simp at h
      | cons q rest2 ih =>
          intro hmem
          rw [List.foldl_cons, get_connected_users_foldl s rest2]
          rcases List.mem_cons.mp hmem with he | hm2
          · subst he
            rcases p with ⟨uid, conns⟩
            simp only at hconns
            subst hconns
            apply List.mem_append_left
            simp [get_connected_users_step, hu, hm]
          · exact List.mem_append_right _ (ih hm2)
    exact hgen s.active_connections hp
/-- C6 witness: the two-connection state has exactly one snapshot row,
and the row carries handle 0's metadata. -/
theorem claim_C6_witness :
    (get_connected_users sC2).length = sC2.active_connections.length ∧
      ∃ u m, alookup sC2.connection_users 0 = some u ∧
        alookup sC2.connection_metadata 0 = some m ∧
        { user_id := toString u.id, username := u.username, role := u.role,
          connection_count := 2,
          connected_at := some m.connected_at,
          last_heartbeat := some m.last_heartbeat : ConnectedUserEntry } ∈
          get_connected_users sC2 :=
  ⟨(claim_C6_snapshot sC2 (by decide) (by decide)).1,
    (claim_C6_snapshot sC2 (by decide) (by decide)).2 (1, [0, 1]) (by decide)
      0 [1] rfl⟩
/-- Role of the owner of the first (arbitrary) connection of a set, as
`send_role_message` resolves it. -/
def head_owner_role (st : CMState) (conns : List Nat) : Option String :=
  match conns with
  | [] => none
  | ws :: _ => (alookup st.connection_users ws).map User.role

/-- Events `send_role_message` produces over an entry list when the
state never changes (no write fails): per entry, if the live set is
non-empty and its first connection's owner matches the role, one
`sent` event per connection of the live set. -/
def role_events (st : CMState) (m : Message) (role : String) :
    List (Nat × List Nat) → List Event
  | [] => []
  | (user_id, _) :: rest =>
      (match (alookup st.active_connections user_id).getD [] with
       | [] => []
       | ws :: _ =>
           match alookup st.connection_users ws with
           | some user =>
               if user.role = role then
                 ((alookup st.active_connections user_id).getD []).map
                   (fun w => Event.sent w m)
               else []
           | none => []) ++ role_events st m role rest

/-- Events `broadcast_message` produces over a user-id list when the
state never changes: per user id, one `sent` event per connection of
the live set. -/
def bcast_events (st : CMState) (m : Message) : List Nat → List Event
  | [] => []
  | user_id :: rest =>
      ((alookup st.active_connections user_id).getD []).map
        (fun w => Event.sent w m) ++ bcast_events st m rest

theorem send_role_message_loop_nofail (g : Nat → Bool) (m : Message)
    (role : String) (hg : ∀ w, g w = false) (st : CMState) :
    ∀ (l : List (Nat × List Nat)) (evs : List Event),
    send_role_message_loop g m role l (st, evs) =
      (st, evs ++ role_events st m role l) := by
  intro l
  induction l with
  | nil =>
      intro evs
      simp [send_role_message_loop, role_events]
  | cons p rest ih =>
      intro evs
      rcases p with ⟨uid, cdummy⟩
      cases hc : (alookup st.active_connections uid).getD [] with
      | nil =>
          simp [send_role_message_loop, role_events, hc, ih]
      | cons ws tail =>
          cases hu : alookup st.connection_users ws with
          | none =>
              simp [send_role_message_loop, role_events, hc, hu, ih]
          | some user =>
              by_cases hrole : user.role = role
              · have hsum := send_user_message_nofail g st m uid hg
                simp [send_role_message_loop, role_events, hc, hu, hrole, hsum, ih]
              · simp [send_role_message_loop, role_events, hc, hu, hrole, ih]

theorem send_role_message_nofail (g : Nat → Bool) (s : CMState)
    (m : Message) (role : String) (hg : ∀ w, g w = false) :
    send_role_message g s m role =
      (s, role_events s m role s.active_connections) := by
  unfold send_role_message
  rw [send_role_message_loop_nofail g m role hg s s.active_connections []]
  simp

theorem broadcast_message_loop_nofail (g : Nat → Bool) (m : Message)
    (hg : ∀ w, g w = false) (st : CMState) :
    ∀ (l : List Nat) (evs : List Event),
    broadcast_message_loop g m l (st, evs) =
      (st, evs ++ bcast_events st m l) := by
  intro l
  induction l with
  | nil =>
      intro evs
      simp [broadcast_message_loop, bcast_events]
  | cons uid rest ih =>
      intro evs
      have hsum := send_user_message_nofail g st m uid hg
      simp [broadcast_message_loop, bcast_events, hsum, ih]

theorem broadcast_message_nofail (g : Nat → Bool) (s : CMState)
    (m : Message) (hg : ∀ w, g w = false) :
    broadcast_message g s m =
      (s, bcast_events s m (s.active_connections.map Prod.fst)) := by
  unfold broadcast_message
  rw [broadcast_message_loop_nofail g m hg s (s.active_connections.map Prod.fst) []]
  simp

theorem role_events_complete (st : CMState) (m : Message) (role : String) :
    ∀ l : List (Nat × List Nat), ∀ p ∈ l,
      alookup st.active_connections p.1 = some p.2 →
      head_owner_role st p.2 = some role →
      ∀ w ∈ p.2, Event.sent w m ∈ role_events st m role l := by
  intro l
  induction l with
  | nil => intro p hp; simp at hp
  | cons q rest ih =>
      intro p hp hlook hhead w hw
      rcases List.mem_cons.mp hp with he | hm
      · rcases p with ⟨uid, conns⟩
        subst he
        simp only at hlook hhead hw
        have hgd : (alookup st.active_connections uid).getD [] = conns := by
          rw [hlook]
          rfl
        cases hconns : conns with
        | nil =>
            rw [hconns] at hhead
            simp [head_owner_role] at hhead
        | cons ws0 tail =>
            obtain ⟨u0, hu0, hur⟩ : ∃ u0,
                alookup st.connection_users ws0 = some u0 ∧ u0.role = role := by
              rw [hconns] at hhead
              simp only [head_owner_role] at hhead
              cases hx : alookup st.connection_users ws0 with
              | none => rw [hx] at hhead; simp at hhead
              | some x => rw [hx] at hhead; exact ⟨x, rfl, by simpa using hhead⟩
            simp only [role_events, hgd, hconns, hu0, if_pos hur]
            apply List.mem_append_left
            rw [← hconns]
            exact List.mem_map_of_mem _ hw
      · exact List.mem_append_right _ (ih p hm hlook hhead w hw)

theorem role_events_sound (st : CMState) (m : Message) (role : String) :
    ∀ l : List (Nat × List Nat), ∀ e ∈ role_events st m role l,
      ∃ uid, ∃ w ∈ (alookup st.active_connections uid).getD [],
        e = Event.sent w m ∧
        head_owner_role st ((alookup st.active_connections uid).getD []) =
          some role := by
  intro l
  induction l with
  | nil => intro e he; simp [role_events] at he
  | cons q rest ih =>
      intro e he
      rcases q with ⟨uid, cdummy⟩
      cases hconns : (alookup st.active_connections uid).getD [] with
      | nil =>
          simp only [role_events, hconns, List.nil_append] at he
          exact ih e he
      | cons ws0 tail =>
          cases hu : alookup st.connection_users ws0 with
          | none =>
              simp only [role_events, hconns, hu, List.nil_append] at he
              exact ih e he
          | some user =>
              by_cases hrole : user.role = role
              · simp only [role_events, hconns, hu, if_pos hrole] at he
                rcases List.mem_append.mp he with hl | hr
                · obtain ⟨w, hw, hew⟩ := List.mem_map.mp hl
                  refine ⟨uid, w, by rw [hconns]; exact hw, hew.symm, ?_⟩
                  rw [hconns]
                  simp [head_owner_role, hu, hrole]
                · exact ih e hr
              · simp only [role_events, hconns, hu, if_neg hrole,
                  List.nil_append] at he
                exact ih e he
theorem mem_bcast_events (st : CMState) (m : Message) :
    ∀ (l : List Nat) (uid : Nat), uid ∈ l →
      ∀ w ∈ (alookup st.active_connections uid).getD [],
      Event.sent w m ∈ bcast_events st m l := by
  intro l
  induction l with
  | nil => intro uid h; simp at h
  | cons a rest ih =>
      intro uid hmem w hw
      rcases List.mem_cons.mp hmem with he | hm
      · subst he
        exact List.mem_append_left _ (List.mem_map_of_mem _ hw)
      · exact List.mem_append_right _ (ih uid hm w hw)

theorem sent_to_false_of (evs : List Event) (ws : Nat)
    (h : ∀ m', Event.sent ws m' ∉ evs) : sent_to evs ws = false := by
  unfold sent_to
  rw [List.any_eq_false]
  intro e he
  cases e with
  | sent w m' =>
      simp only [Bool.not_eq_true, beq_eq_false_iff_ne, ne_eq]
      intro hw
      subst hw
      exact h m' he
  | closed w c r => simp

theorem delivered_type_of_mem (evs : List Event) (ws : Nat) (ty : String)
    (m : Message) (hm : Event.sent ws m ∈ evs) (hty : m.mtype = ty) :
    delivered_type evs ws ty = true := by
  unfold delivered_type
  rw [List.any_eq_true]
  exact ⟨Event.sent ws m, hm, by simp [hty]⟩
theorem notify_new_detection_nofail (s : CMState) (did : Nat) (ia : Bool)
    (conf : String) (now : Int) :
    ∃ m : Message, m.mtype = "new_detection" ∧
      notify_new_detection noFail s did ia conf now =
        (s, role_events s m "reviewer" s.active_connections ++
          role_events s m "admin" s.active_connections) := by
  have hsrm : ∀ (st : CMState) (mm : Message) (role : String),
      send_role_message noFail st mm role =
        (st, role_events st mm role st.active_connections) :=
    fun st mm role => send_role_message_nofail noFail st mm role (fun _ => rfl)
  refine ⟨new_detection_message did ia conf now, rfl, ?_⟩
  simp [notify_new_detection, hsrm]

theorem notify_review_completed_nofail (s : CMState) (rid did : Nat)
    (verdict : String) (now : Int) :
    ∃ m : Message, m.mtype = "review_completed" ∧
      notify_review_completed noFail s rid did verdict now =
        (s, bcast_events s m (s.active_connections.map Prod.fst)) := by
  have hbc : ∀ (st : CMState) (mm : Message),
      broadcast_message noFail st mm =
        (st, bcast_events st mm (st.active_connections.map Prod.fst)) :=
    fun st mm => broadcast_message_nofail noFail st mm (fun _ => rfl)
  refine ⟨review_completed_message rid did verdict now, rfl, ?_⟩
  simp [notify_review_completed, hbc]

theorem notify_system_alert_nofail (s : CMState) (atype atext : String)
    (d : List (String × String)) (now : Int) :
    ∃ m : Message, m.mtype = "system_alert" ∧
      notify_system_alert noFail s atype atext d now =
        (s, role_events s m "admin" s.active_connections) := by
  have hsrm : ∀ (st : CMState) (mm : Message) (role : String),
      send_role_message noFail st mm role =
        (st, role_events st mm role st.active_connections) :=
    fun st mm role => send_role_message_nofail noFail st mm role (fun _ => rfl)
  refine ⟨system_alert_message atype atext d now, rfl, ?_⟩
  simp [notify_system_alert, hsrm]

/-- C3: for every Registry state satisfying the invariant whose
reverse-lookup entries are consistent per user id, and with every
transport write succeeding: `notify_new_detection` delivers a
`new_detection` envelope to every connection of every reviewer-role
and admin-role user and to no connection of an operator-role user;
`notify_review_completed` delivers a `review_completed` envelope to
every connection of every connected user regardless of role; and
`notify_system_alert` delivers a `system_alert` envelope to every
connection of every admin-role user and to no connection of any
other user. -/
theorem claim_C3_notification_routing (s : CMState) (did rid : Nat)
    (ia : Bool) (conf verdict atype atext : String)
    (d : List (String × String)) (now : Int)
    (hwf : registry_wf s) (hinv : registry_inv s) (hagree : users_agree s) :
    ∀ ws u, alookup s.connection_users ws = some u →
      (∃ p ∈ s.active_connections, ws ∈ p.2) →
      (((u.role = "reviewer" ∨ u.role = "admin") →
          delivered_type (notify_new_detection noFail s did ia conf now).2 ws
            "new_detection" = true) ∧
        (u.role = "operator" →
          sent_to (notify_new_detection noFail s did ia conf now).2 ws =
            false)) ∧
      delivered_type (notify_review_completed noFail s rid did verdict now).2
        ws "review_completed" = true ∧
      ((u.role = "admin" →
          delivered_type (notify_system_alert noFail s atype atext d now).2 ws
            "system_alert" = true) ∧
        (u.role ≠ "admin" →
          sent_to (notify_system_alert noFail s atype atext d now).2 ws =
            false)) := by
  intro ws u hreg hconn
  obtain ⟨p, hp, hws⟩ := hconn
  obtain ⟨hwA, hwU, hwM, hwS⟩ := hwf
  obtain ⟨h1, h2⟩ := hinv
  have hlookp : alookup s.active_connections p.1 = some p.2 :=
    alookup_of_mem _ _ _ hwA hp
  have hid : u.id = p.1 := by
    have := h2 p hp ws hws
    rw [hreg] at this
    simpa using this
  obtain ⟨ws0, tail, hpc⟩ : ∃ ws0 tail, p.2 = ws0 :: tail := by
    cases hc : p.2 with
    | nil => exact absurd hc (h1 p hp)
    | cons a b => exact ⟨a, b, rfl⟩
  have hws0 : ws0 ∈ p.2 := by
    rw [hpc]
    exact List.mem_cons_self _ _
  obtain ⟨u0, hu0, hid0⟩ : ∃ u0, alookup s.connection_users ws0 = some u0 ∧
      u0.id = p.1 := by
    have := h2 p hp ws0 hws0
    cases hx : alookup s.connection_users ws0 with
    | none => rw [hx] at this; simp at this
    | some x => rw [hx] at this; exact ⟨x, rfl, by simpa using this⟩
  have hu0u : u0 = u :=
    hagree (ws0, u0) (mem_of_alookup _ _ _ hu0) (ws, u)
      (mem_of_alookup _ _ _ hreg) (by rw [hid0, hid])
  have hhead : head_owner_role s p.2 = some u.role := by
    rw [hpc]
    simp [head_owner_role, hu0, hu0u]
  have hfind : ∀ uid, ws ∈ (alookup s.active_connections uid).getD [] →
      uid = p.1 ∧ (alookup s.active_connections uid).getD [] = p.2 := by
    intro uid hmem
    cases hq : alookup s.active_connections uid with
    | none => rw [hq] at hmem; simp at hmem
    | some c =>
        rw [hq] at hmem
        simp only [Option.getD_some] at hmem
        have hqmem : (uid, c) ∈ s.active_connections := mem_of_alookup _ _ _ hq
        have hthis := h2 (uid, c) hqmem ws hmem
        rw [hreg] at hthis
        have huid : u.id = uid := by simpa using hthis
        have hup : uid = p.1 := by rw [← huid, hid]
        have hcp : c = p.2 := by
          have hq2 : alookup s.active_connections p.1 = some c := by
            rw [← hup]
            exact hq
          exact Option.some.inj (hq2.symm.trans hlookp)
        refine ⟨hup, ?_⟩
        rw [Option.getD_some, hcp]
  have hpos : ∀ (role : String) (mm : Message), u.role = role →
      Event.sent ws mm ∈ role_events s mm role s.active_connections := by
    intro role mm hrole
    exact role_events_complete s mm role s.active_connections p hp hlookp
      (by rw [hhead, hrole]) ws hws
  have hneg : ∀ (role : String) (mm : Message), u.role ≠ role →
      ∀ m', Event.sent ws m' ∉ role_events s mm role s.active_connections := by
    intro role mm hrole m' hmem
    obtain ⟨uid, w, hwmem, hew, hhr⟩ :=
      role_events_sound s mm role s.active_connections _ hmem
    obtain ⟨hwsw, hmm⟩ : ws = w ∧ m' = mm := by
      have := Event.sent.injEq ws m' w mm ▸ hew
      exact ⟨(Event.sent.inj hew).1, (Event.sent.inj hew).2⟩
    subst hwsw
    have hf := hfind uid hwmem
    rw [hf.2, hhead] at hhr
    exact hrole (Option.some.inj hhr)
  refine ⟨⟨?_, ?_⟩, ?_, ?_, ?_⟩
  · intro hrole
    obtain ⟨mnd, hmnd, hqnd⟩ := notify_new_detection_nofail s did ia conf now
    rw [hqnd]
    rcases hrole with hrole | hrole
    · exact delivered_type_of_mem _ ws _ mnd
        (List.mem_append_left _ (hpos "reviewer" mnd hrole)) hmnd
    · exact delivered_type_of_mem _ ws _ mnd
        (List.mem_append_right _ (hpos "admin" mnd hrole)) hmnd
  · intro hrole
    obtain ⟨mnd, hmnd, hqnd⟩ := notify_new_detection_nofail s did ia conf now
    rw [hqnd]
    apply sent_to_false_of
    intro m' hmem
    rcases List.mem_append.mp hmem with hl | hr
    · exact hneg "reviewer" mnd (by rw [hrole]; decide) m' hl
    · exact hneg "admin" mnd (by rw [hrole]; decide) m' hr
  · obtain ⟨mrc, hmrc, hqrc⟩ := notify_review_completed_nofail s rid did
      verdict now
    rw [hqrc]
    apply delivered_type_of_mem _ ws _ mrc ?_ hmrc
    apply mem_bcast_events s mrc (s.active_connections.map Prod.fst) p.1
      (List.mem_map_of_mem Prod.fst hp) ws
    rw [hlookp]
    simpa using hws
  · intro hrole
    obtain ⟨msa, hmsa, hqsa⟩ := notify_system_alert_nofail s atype atext d now
    rw [hqsa]
    exact delivered_type_of_mem _ ws _ msa (hpos "admin" msa hrole) hmsa
  · intro hrole
    obtain ⟨msa, hmsa, hqsa⟩ := notify_system_alert_nofail s atype atext d now
    rw [hqsa]
    apply sent_to_false_of
    intro m' hmem
    exact hneg "admin" msa hrole m' hmem
def sC3 : CMState :=
  (connect noFail ((connect noFail ((connect noFail mkConnectionManager 0
    uReviewer 0).1) 1 uAdmin 1).1) 2 uOperator 2).1

/-- C3 witness: one reviewer (handle 0), one admin (handle 1), one
operator (handle 2); `new_detection` reaches the reviewer and skips
the operator, `review_completed` reaches the operator, `system_alert`
reaches the admin and skips the reviewer. -/
theorem claim_C3_witness :
    delivered_type (notify_new_detection noFail sC3 7 true "0.9" 10).2 0
        "new_detection" = true ∧
      sent_to (notify_new_detection noFail sC3 7 true "0.9" 10).2 2 = false ∧
      delivered_type (notify_review_completed noFail sC3 8 7 "confirmed" 10).2
        2 "review_completed" = true ∧
      delivered_type (notify_system_alert noFail sC3 "disk" "low" [] 10).2 1
        "system_alert" = true ∧
      sent_to (notify_system_alert noFail sC3 "disk" "low" [] 10).2 0 =
        false := by
  have h := claim_C3_notification_routing sC3 7 8 true "0.9" "confirmed"
    "disk" "low" [] 10 (by decide) (by decide) (by decide)
  refine ⟨?_, ?_, ?_, ?_, ?_⟩
  · exact (h 0 uReviewer (by decide) ⟨(1, [0]), by decide, by decide⟩).1.1
      (Or.inl rfl)
  · exact (h 2 uOperator (by decide) ⟨(3, [2]), by decide, by decide⟩).1.2 rfl
  · exact (h 2 uOperator (by decide) ⟨(3, [2]), by decide, by decide⟩).2.1
  · exact (h 1 uAdmin (by decide) ⟨(2, [1]), by decide, by decide⟩).2.2.1 rfl
  · exact (h 0 uReviewer (by decide) ⟨(1, [0]), by decide, by decide⟩).2.2.2
      (by decide)
end AnomalyReview
